import Mathlib

/-!
Verification of the harvesting-and-aggregation pipeline of the
github-repo-analytics repository against its natural-language specification.

The JavaScript source is shallowly embedded in Lean:

* ISO calendar-day strings (such as 2023-01-02) are modelled as natural
  numbers, the index of the day; lexicographic comparison of ISO dates
  (localeCompare in the source) coincides with numeric comparison of the
  indices, so order-sensitive code is unaffected.
* JavaScript numbers holding counters are modelled as integers (Int);
  Math.max(0, a - b) becomes max 0 (a - b) over Int.
* A JavaScript Map keyed by date is modelled as an insertion-ordered
  association list of points with distinct dates; Map.set is mapSet below.
* Array.prototype.sort with a comparator is a stable sort in JavaScript;
  it is modelled by List.mergeSort, which is also stable.
* Console output is part of the observable behaviour where a claim speaks
  about warnings; a function emitting no console warning has an empty
  warning-log model.
-/

/-! ### Data model: daily metric points (src/services/supabase.js, src/utils/dataAggregator.js) -/

/-- One point of a cumulative daily series, as stored in the cache and as
handled by mergeDailyMetrics: a date plus the eight cumulative counters. -/
structure DailyMetricPoint where
  date : Nat
  totalStars : Int
  totalForks : Int
  totalContributors : Int
  totalIssuesOpened : Int
  totalIssuesClosed : Int
  totalPRsOpened : Int
  totalPRsClosed : Int
  totalPRsMerged : Int
deriving DecidableEq, Repr

namespace Merge

/-- Map.set on the date-keyed map of mergeDailyMetrics: if the date is
already a key its value is replaced in place, otherwise the entry is
appended, preserving insertion order exactly as a JavaScript Map does. -/
def mapSet (m : List DailyMetricPoint) (p : DailyMetricPoint) : List DailyMetricPoint :=
  if m.any (fun q => q.date = p.date) then
    m.map (fun q => if q.date = p.date then p else q)
  else
    m ++ [p]

/-- The per-date combination of mergeDailyMetrics for a date present on both
sides: totalStars and totalForks are added, the six other counters take the
maximum of the two sides. -/
def combinePoints (existing m : DailyMetricPoint) : DailyMetricPoint :=
  { date := m.date
    totalStars := existing.totalStars + m.totalStars
    totalForks := existing.totalForks + m.totalForks
    totalContributors := max existing.totalContributors m.totalContributors
    totalIssuesOpened := max existing.totalIssuesOpened m.totalIssuesOpened
    totalIssuesClosed := max existing.totalIssuesClosed m.totalIssuesClosed
    totalPRsOpened := max existing.totalPRsOpened m.totalPRsOpened
    totalPRsClosed := max existing.totalPRsClosed m.totalPRsClosed
    totalPRsMerged := max existing.totalPRsMerged m.totalPRsMerged }

/-- Processing one point of newMetrics: combine with the entry already
present for that date, or insert the point verbatim. -/
def mergeStep (acc : List DailyMetricPoint) (m : DailyMetricPoint) : List DailyMetricPoint :=
  match acc.find? (fun q => q.date = m.date) with
  | some existing => mapSet acc (combinePoints existing m)
  | none => mapSet acc m

/-- Array.from(map.values()).sort((a, b) => a.date.localeCompare(b.date)). -/
def sortByDate (l : List DailyMetricPoint) : List DailyMetricPoint :=
  l.mergeSort (fun a b => a.date ≤ b.date)

/-- The clamped per-day increment of totalStars relative to the previous
sorted point: the first point keeps its own total as increment, later
points clamp the difference at zero (Math.max(0, ...)). -/
def starsIncOf (prev : Option DailyMetricPoint) (day : DailyMetricPoint) : Int :=
  match prev with
  | none => day.totalStars
  | some p => max 0 (day.totalStars - p.totalStars)

/-- The clamped per-day increment of totalForks relative to the previous
sorted point. -/
def forksIncOf (prev : Option DailyMetricPoint) (day : DailyMetricPoint) : Int :=
  match prev with
  | none => day.totalForks
  | some p => max 0 (day.totalForks - p.totalForks)

/-- The two re-derivation passes of mergeDailyMetrics fused into one
recursion: walking the sorted list, running sums of the clamped per-day
increments replace totalStars and totalForks; all other fields are
copied. -/
def reintegrate (prev : Option DailyMetricPoint) (runStars runForks : Int) :
    List DailyMetricPoint → List DailyMetricPoint
  | [] => []
  | day :: rest =>
    { day with
      totalStars := runStars + starsIncOf prev day
      totalForks := runForks + forksIncOf prev day } ::
      reintegrate (some day) (runStars + starsIncOf prev day)
        (runForks + forksIncOf prev day) rest

/-- mergeDailyMetrics (src/services/supabase.js): insert the existing
series into a date-keyed map, fold the new series in with the per-date
combination, sort by date and re-derive cumulative totalStars and
totalForks from clamped increments. -/
def mergeDailyMetrics (existingMetrics newMetrics : List DailyMetricPoint) :
    List DailyMetricPoint :=
  let afterExisting := existingMetrics.foldl mapSet []
  let combined := newMetrics.foldl mergeStep afterExisting
  reintegrate none 0 0 (sortByDate combined)

/-- The body of mergeDailyMetrics contains no console.warn or console.log
call: its emitted warning log is empty on every input. -/
def mergeDailyMetricsWarnings (_existingMetrics _newMetrics : List DailyMetricPoint) :
    List String := []

/-- The value a date-keyed map of a series holds at a date: the first point
with that date, if any. -/
def lookupDate (l : List DailyMetricPoint) (d : Nat) : Option DailyMetricPoint :=
  l.find? (fun p => p.date = d)

/-- The value the per-date combination step of mergeDailyMetrics assigns to
a date: the max/sum combination where the date is present in both inputs,
the single side verbatim where it is present in one, nothing otherwise. -/
def combineAt (existingMetrics newMetrics : List DailyMetricPoint) (d : Nat) :
    Option DailyMetricPoint :=
  match lookupDate existingMetrics d, lookupDate newMetrics d with
  | some a, some b => some (combinePoints a b)
  | some a, none => some a
  | none, some b => some b
  | none, none => none

/-- The per-date combination applied to one existing point against the
whole new series. -/
def updBy (newMetrics : List DailyMetricPoint) (a : DailyMetricPoint) : DailyMetricPoint :=
  match lookupDate newMetrics a.date with
  | some b => combinePoints a b
  | none => a

/-- Doubling the two additive counters of a point, leaving the date and the
six max-combined counters unchanged; merging a series with itself produces
exactly this on the stars and forks totals. -/
def doubleSF (p : DailyMetricPoint) : DailyMetricPoint :=
  { p with totalStars := 2 * p.totalStars, totalForks := 2 * p.totalForks }

end Merge

/-- A well-formed daily series carries at most one point per calendar day
(the data model stores one row per date). -/
def datesNodup (l : List DailyMetricPoint) : Prop :=
  l.Pairwise (fun p q => p.date ≠ q.date)

instance (l : List DailyMetricPoint) : Decidable (datesNodup l) :=
  inferInstanceAs (Decidable (l.Pairwise (fun p q : DailyMetricPoint => p.date ≠ q.date)))

/-! ### Daily Aggregator (src/utils/dataAggregator.js aggregateToDaily)

Raw events carry ISO timestamps; the source truncates each timestamp to its
calendar day (split at the letter T), modelled here as a day index already
attached to the event. The repository creation day is lo, the as-of day
(new Date() in the source) is hi. -/

/-- A stargazer event as produced by the stars harvesters. -/
structure Stargazer where
  user : String
  starredDay : Nat
deriving DecidableEq, Repr

/-- A fork event as produced by fetchAllForks. -/
structure ForkEvent where
  owner : String
  createdDay : Nat
deriving DecidableEq, Repr

/-- An issue event as produced by fetchAllIssues. -/
structure IssueEvent where
  number : Nat
  state : String
  createdDay : Nat
  closedDay : Option Nat
deriving DecidableEq, Repr

/-- A pull-request event as produced by fetchAllPullRequests. -/
structure PullRequestEvent where
  number : Nat
  state : String
  createdDay : Nat
  closedDay : Option Nat
  mergedDay : Option Nat
deriving DecidableEq, Repr

/-- A commit event as produced by fetchContributorCommits; the author is
optional (the source skips commits with no author). -/
structure CommitEvent where
  sha : String
  author : Option String
  day : Nat
deriving DecidableEq, Repr

/-- The five raw-event collections handed to the aggregator by one run. -/
structure RawEvents where
  stargazers : List Stargazer
  forks : List ForkEvent
  issues : List IssueEvent
  prs : List PullRequestEvent
  commits : List CommitEvent
deriving DecidableEq, Repr

namespace Agg

/-- The calendar days from lo through hi inclusive, in ascending order:
the keys the source inserts into dayMap, in insertion order. -/
def daysRange (lo hi : Nat) : List Nat :=
  (List.range (hi + 1 - lo)).map (fun i => lo + i)

/-- First-seen assignment of commit authors to days, mirroring the
seenContributors loop of the source: commits are scanned in list order; a
commit with no author is skipped; a commit whose day lies outside lo..hi is
skipped without marking its author seen; otherwise a not-yet-seen author is
marked seen and assigned to that day. -/
def contribAssign (lo hi : Nat) : List String → List CommitEvent → List (String × Nat)
  | _, [] => []
  | seen, c :: rest =>
    match c.author with
    | none => contribAssign lo hi seen rest
    | some a =>
      if lo ≤ c.day ∧ c.day ≤ hi ∧ ¬ seen.contains a then
        (a, c.day) :: contribAssign lo hi (a :: seen) rest
      else
        contribAssign lo hi seen rest

/-- The per-day bucket counts of dayMap after all five distribution loops. -/
structure DayCounts where
  starsAdded : Nat
  forksAdded : Nat
  issuesOpened : Nat
  issuesClosed : Nat
  prsOpened : Nat
  prsClosed : Nat
  prsMerged : Nat
  newContributors : Nat
deriving DecidableEq, Repr

/-- The bucket of day d (a day inside lo..hi): each distribution loop
increments the bucket of the event day when that day is a dayMap key. -/
def dayCounts (lo hi : Nat) (ev : RawEvents) (d : Nat) : DayCounts :=
  { starsAdded := (ev.stargazers.filter (fun s => s.starredDay = d)).length
    forksAdded := (ev.forks.filter (fun f => f.createdDay = d)).length
    issuesOpened := (ev.issues.filter (fun i => i.createdDay = d)).length
    issuesClosed := (ev.issues.filter (fun i => i.closedDay = some d)).length
    prsOpened := (ev.prs.filter (fun p => p.createdDay = d)).length
    prsClosed := (ev.prs.filter (fun p => p.closedDay = some d)).length
    prsMerged := (ev.prs.filter (fun p => p.mergedDay = some d)).length
    newContributors :=
      ((contribAssign lo hi [] ev.commits).filter (fun ad => ad.2 = d)).length }

/-- The eight running totals of the final cumulative pass. -/
structure Totals where
  totalStars : Nat
  totalForks : Nat
  totalContributors : Nat
  totalIssuesOpened : Nat
  totalIssuesClosed : Nat
  totalPRsOpened : Nat
  totalPRsClosed : Nat
  totalPRsMerged : Nat
deriving DecidableEq, Repr

def Totals.zero : Totals := ⟨0, 0, 0, 0, 0, 0, 0, 0⟩

/-- Adding one day bucket to the running totals. -/
def Totals.add (t : Totals) (c : DayCounts) : Totals :=
  { totalStars := t.totalStars + c.starsAdded
    totalForks := t.totalForks + c.forksAdded
    totalContributors := t.totalContributors + c.newContributors
    totalIssuesOpened := t.totalIssuesOpened + c.issuesOpened
    totalIssuesClosed := t.totalIssuesClosed + c.issuesClosed
    totalPRsOpened := t.totalPRsOpened + c.prsOpened
    totalPRsClosed := t.totalPRsClosed + c.prsClosed
    totalPRsMerged := t.totalPRsMerged + c.prsMerged }

/-- One output point of the aggregator: the date, the eight cumulative
counters, and the two derived open counts (which the source computes as
differences of totals, so they can be negative in principle). -/
structure AggPoint where
  date : Nat
  totalStars : Nat
  totalForks : Nat
  totalContributors : Nat
  totalIssuesOpened : Nat
  totalIssuesClosed : Nat
  openIssues : Int
  totalPRsOpened : Nat
  totalPRsClosed : Nat
  totalPRsMerged : Nat
  openPRs : Int
deriving DecidableEq, Repr

/-- The point emitted for day d once the running totals reached t. -/
def mkPoint (d : Nat) (t : Totals) : AggPoint :=
  { date := d
    totalStars := t.totalStars
    totalForks := t.totalForks
    totalContributors := t.totalContributors
    totalIssuesOpened := t.totalIssuesOpened
    totalIssuesClosed := t.totalIssuesClosed
    openIssues := (t.totalIssuesOpened : Int) - t.totalIssuesClosed
    totalPRsOpened := t.totalPRsOpened
    totalPRsClosed := t.totalPRsClosed
    totalPRsMerged := t.totalPRsMerged
    openPRs := (t.totalPRsOpened : Int) - t.totalPRsClosed }

/-- The cumulative pass: walk the day list in ascending order accumulating
the running totals and emitting one point per day. -/
def aggAux (lo hi : Nat) (ev : RawEvents) : Totals → List Nat → List AggPoint
  | _, [] => []
  | t, d :: ds =>
    let t2 := t.add (dayCounts lo hi ev d)
    mkPoint d t2 :: aggAux lo hi ev t2 ds

/-- aggregateToDaily: one bucket per day from the creation day lo through
the as-of day hi, events distributed into buckets, then cumulative running
sums in date order. The sort in the source is applied to dayMap values,
which are already in ascending date insertion order, so it is the
identity and is elided here. -/
def aggregateToDaily (lo hi : Nat) (ev : RawEvents) : List AggPoint :=
  aggAux lo hi ev Totals.zero (daysRange lo hi)

/-- The body of aggregateToDaily contains no console.warn or console.log
call: its emitted warning log is empty on every input, in particular when
events fall outside the day range lo..hi. -/
def aggregateToDailyWarnings (_lo _hi : Nat) (_ev : RawEvents) : List String := []

/-- Pointwise order on the eight cumulative counters of two output points:
each counter of the first is at most the counter of the second. -/
def counterLe (p q : AggPoint) : Prop :=
  p.totalStars ≤ q.totalStars ∧
  p.totalForks ≤ q.totalForks ∧
  p.totalContributors ≤ q.totalContributors ∧
  p.totalIssuesOpened ≤ q.totalIssuesOpened ∧
  p.totalIssuesClosed ≤ q.totalIssuesClosed ∧
  p.totalPRsOpened ≤ q.totalPRsOpened ∧
  p.totalPRsClosed ≤ q.totalPRsClosed ∧
  p.totalPRsMerged ≤ q.totalPRsMerged

instance (p q : AggPoint) : Decidable (counterLe p q) :=
  inferInstanceAs (Decidable (p.totalStars ≤ q.totalStars ∧
    p.totalForks ≤ q.totalForks ∧
    p.totalContributors ≤ q.totalContributors ∧
    p.totalIssuesOpened ≤ q.totalIssuesOpened ∧
    p.totalIssuesClosed ≤ q.totalIssuesClosed ∧
    p.totalPRsOpened ≤ q.totalPRsOpened ∧
    p.totalPRsClosed ≤ q.totalPRsClosed ∧
    p.totalPRsMerged ≤ q.totalPRsMerged))

/-- An issue event lies inside the aggregation range when its opened day or
its closed day (when present) does. -/
def issueTouchesRange (lo hi : Nat) (i : IssueEvent) : Bool :=
  decide (lo ≤ i.createdDay ∧ i.createdDay ≤ hi) ||
    (match i.closedDay with
     | some d => decide (lo ≤ d ∧ d ≤ hi)
     | none => false)

/-- A pull-request event lies inside the aggregation range when its opened,
closed or merged day does. -/
def prTouchesRange (lo hi : Nat) (p : PullRequestEvent) : Bool :=
  decide (lo ≤ p.createdDay ∧ p.createdDay ≤ hi) ||
    (match p.closedDay with
     | some d => decide (lo ≤ d ∧ d ≤ hi)
     | none => false) ||
    (match p.mergedDay with
     | some d => decide (lo ≤ d ∧ d ≤ hi)
     | none => false)

/-- The five event collections with every event lying wholly outside the
range lo..hi removed. -/
def keepInRange (lo hi : Nat) (ev : RawEvents) : RawEvents :=
  { stargazers := ev.stargazers.filter (fun s => lo ≤ s.starredDay ∧ s.starredDay ≤ hi)
    forks := ev.forks.filter (fun f => lo ≤ f.createdDay ∧ f.createdDay ≤ hi)
    issues := ev.issues.filter (issueTouchesRange lo hi)
    prs := ev.prs.filter (prTouchesRange lo hi)
    commits := ev.commits.filter (fun c => lo ≤ c.day ∧ c.day ≤ hi) }

end Agg

/-! ### Monthly Rollup (src/services/supabase.js calculateMonthlyMetrics)

The Date arithmetic sending an ISO day to the last day of its calendar
month is abstracted as a parameter monthEndOf on day indices; claim C5 does
not depend on any property of it. -/

namespace Monthly

/-- The record kept per month during grouping: the month-end key, the date
of the daily point currently representing the month, and the seven metric
values the source extracts (with a null-coalescing default of 0, which is
vacuous here since every point carries values). -/
structure MonthAgg where
  monthEnd : Nat
  date : Nat
  stars : Int
  forks : Int
  issuesOpened : Int
  issuesClosed : Int
  prsOpened : Int
  prsMerged : Int
  contributors : Int
deriving DecidableEq, Repr

/-- Extracting the month record from one daily point. -/
def toMonthAgg (key : Nat) (day : DailyMetricPoint) : MonthAgg :=
  { monthEnd := key
    date := day.date
    stars := day.totalStars
    forks := day.totalForks
    issuesOpened := day.totalIssuesOpened
    issuesClosed := day.totalIssuesClosed
    prsOpened := day.totalPRsOpened
    prsMerged := day.totalPRsMerged
    contributors := day.totalContributors }

/-- Map.set on the month-keyed map: replace in place or append. -/
def monthMapSet (m : List MonthAgg) (p : MonthAgg) : List MonthAgg :=
  if m.any (fun q => q.monthEnd = p.monthEnd) then
    m.map (fun q => if q.monthEnd = p.monthEnd then p else q)
  else
    m ++ [p]

/-- One step of the grouping loop: a month keeps the daily point with the
largest date seen so far for that month. -/
def groupStep (monthEndOf : Nat → Nat) (acc : List MonthAgg) (day : DailyMetricPoint) :
    List MonthAgg :=
  let key := monthEndOf day.date
  match acc.find? (fun r => r.monthEnd = key) with
  | some r => if r.date < day.date then monthMapSet acc (toMonthAgg key day) else acc
  | none => acc ++ [toMonthAgg key day]

/-- Array.from(map.values()).sort by monthEnd (localeCompare). -/
def sortByMonthEnd (l : List MonthAgg) : List MonthAgg :=
  l.mergeSort (fun a b => a.monthEnd ≤ b.monthEnd)

/-- Math.round: round half towards positive infinity. -/
def jsRound (q : ℚ) : ℤ := ⌊q + 1 / 2⌋

/-- calcChange of the source: absolute change, null when there is no
previous month. -/
def calcChange (current : ℤ) (previous : Option ℤ) : Option ℤ :=
  match previous with
  | none => none
  | some p => some (current - p)

/-- calcGrowthPct of the source: null when the previous value is null or
zero, otherwise Math.round(((current - previous) / previous) * 10000) / 100. -/
def calcGrowthPct (current : ℤ) (previous : Option ℤ) : Option ℚ :=
  match previous with
  | none => none
  | some p =>
    if p = 0 then none
    else some ((jsRound (((current : ℚ) - p) / p * 10000) : ℚ) / 100)

/-- One output row of calculateMonthlyMetrics: for each of the seven
tracked metrics, the value at month end, the month-over-month change and
the month-over-month growth percentage. -/
structure MonthlyMetricPoint where
  monthEnd : Nat
  starsAtMonthEnd : Int
  starsMomChange : Option Int
  starsMomGrowthPct : Option ℚ
  forksAtMonthEnd : Int
  forksMomChange : Option Int
  forksMomGrowthPct : Option ℚ
  issuesOpenedAtMonthEnd : Int
  issuesOpenedMomChange : Option Int
  issuesOpenedMomGrowthPct : Option ℚ
  issuesClosedAtMonthEnd : Int
  issuesClosedMomChange : Option Int
  issuesClosedMomGrowthPct : Option ℚ
  prsOpenedAtMonthEnd : Int
  prsOpenedMomChange : Option Int
  prsOpenedMomGrowthPct : Option ℚ
  prsMergedAtMonthEnd : Int
  prsMergedMomChange : Option Int
  prsMergedMomGrowthPct : Option ℚ
  contributorsAtMonthEnd : Int
  contributorsMomChange : Option Int
  contributorsMomGrowthPct : Option ℚ
deriving DecidableEq, Repr

/-- The row built from the current month and the optional previous month
(prevMonth?.field ?? null in the source). -/
def mkMonthly (prev : Option MonthAgg) (m : MonthAgg) : MonthlyMetricPoint :=
  { monthEnd := m.monthEnd
    starsAtMonthEnd := m.stars
    starsMomChange := calcChange m.stars (prev.map (fun r => r.stars))
    starsMomGrowthPct := calcGrowthPct m.stars (prev.map (fun r => r.stars))
    forksAtMonthEnd := m.forks
    forksMomChange := calcChange m.forks (prev.map (fun r => r.forks))
    forksMomGrowthPct := calcGrowthPct m.forks (prev.map (fun r => r.forks))
    issuesOpenedAtMonthEnd := m.issuesOpened
    issuesOpenedMomChange := calcChange m.issuesOpened (prev.map (fun r => r.issuesOpened))
    issuesOpenedMomGrowthPct := calcGrowthPct m.issuesOpened (prev.map (fun r => r.issuesOpened))
    issuesClosedAtMonthEnd := m.issuesClosed
    issuesClosedMomChange := calcChange m.issuesClosed (prev.map (fun r => r.issuesClosed))
    issuesClosedMomGrowthPct := calcGrowthPct m.issuesClosed (prev.map (fun r => r.issuesClosed))
    prsOpenedAtMonthEnd := m.prsOpened
    prsOpenedMomChange := calcChange m.prsOpened (prev.map (fun r => r.prsOpened))
    prsOpenedMomGrowthPct := calcGrowthPct m.prsOpened (prev.map (fun r => r.prsOpened))
    prsMergedAtMonthEnd := m.prsMerged
    prsMergedMomChange := calcChange m.prsMerged (prev.map (fun r => r.prsMerged))
    prsMergedMomGrowthPct := calcGrowthPct m.prsMerged (prev.map (fun r => r.prsMerged))
    contributorsAtMonthEnd := m.contributors
    contributorsMomChange := calcChange m.contributors (prev.map (fun r => r.contributors))
    contributorsMomGrowthPct := calcGrowthPct m.contributors (prev.map (fun r => r.contributors)) }

/-- sortedMonths.map with the previous month threaded through, mirroring
the index arithmetic prevMonth = index > 0 ? sortedMonths[index - 1] : null. -/
def rollupAux : Option MonthAgg → List MonthAgg → List MonthlyMetricPoint
  | _, [] => []
  | prev, m :: rest => mkMonthly prev m :: rollupAux (some m) rest

/-- calculateMonthlyMetrics: group the daily series by month-end keeping
the latest daily point per month, sort by month, then derive the
month-over-month rows. -/
def calculateMonthlyMetrics (monthEndOf : Nat → Nat) (dailyMetrics : List DailyMetricPoint) :
    List MonthlyMetricPoint :=
  rollupAux none (sortByMonthEnd (dailyMetrics.foldl (groupStep monthEndOf) []))

end Monthly

/-! ### Rate Limit Governor (src/unnamed/part_003)

All times are in milliseconds; rate-limit reset headers arrive in epoch
seconds and are multiplied by 1000 in the source. -/

namespace RateLimit

/-- The reactive wait of handleRateLimit: with no reset header the wait
defaults to 60000 ms, otherwise it is max(0, resetTimestamp - now) plus
the 5000 ms margin; the result is capped at 3600000 ms. -/
def handleRateLimitWaitMs (resetHeader : Option Nat) (now : Int) : Int :=
  let base : Int :=
    match resetHeader with
    | none => 60000
    | some reset => max 0 ((reset : Int) * 1000 - now) + 5000
  min base 3600000

/-- The proactive REST check of checkRateLimit fires when the remaining
header (defaulting to 100 when absent) is under 10. -/
def checkRateLimitTriggers (remainingHeader : Option Nat) : Bool :=
  remainingHeader.getD 100 < 10

/-- The proactive REST wait of checkRateLimit: max(0, resetTime - now)
plus a 1000 ms margin, with no cap; an absent reset header counts as 0. -/
def checkRateLimitWaitMs (resetHeader : Option Nat) (now : Int) : Int :=
  max 0 (((resetHeader.getD 0 : Nat) : Int) * 1000 - now) + 1000

/-- The proactive GraphQL check inside fetchAllStargazersGraphQL fires when
rateLimit.remaining is under 50. -/
def graphqlProactiveTriggers (remaining : Nat) : Bool :=
  remaining < 50

/-- The proactive GraphQL wait: max(0, resetTime - now) plus the 5000 ms
margin, with no cap. -/
def graphqlProactiveWaitMs (resetAt now : Int) : Int :=
  max 0 (resetAt - now) + 5000

end RateLimit

/-! ### Error classification (src/unnamed/part_003) -/

/-- The shape of a caught error as the classifiers read it: error.status,
error.response?.status, error.message and error.response?.data?.message. -/
structure JsError where
  status : Option Nat
  responseStatus : Option Nat
  message : Option String
  responseMessage : Option String
deriving DecidableEq, Repr

namespace Errors

/-- JavaScript a || b || two-quote fallback on strings: an absent or empty
string falls through to the next alternative. -/
def firstTruthyString (a b : Option String) : String :=
  let a2 := a.getD ""
  if a2 ≠ "" then a2 else b.getD ""

/-- JavaScript a || b on optional status codes: absent or zero falls
through. -/
def firstTruthyStatus (a b : Option Nat) : Option Nat :=
  match a with
  | some s => if s ≠ 0 then some s else b
  | none => b

/-- Does the needle occur at the very start of the haystack? -/
def leadMatch : List Char → List Char → Bool
  | [], _ => true
  | _ :: _, [] => false
  | a :: as, b :: bs => a = b && leadMatch as bs

/-- Does the needle occur anywhere in the haystack? -/
def subMatch (needle : List Char) : List Char → Bool
  | [] => leadMatch needle []
  | b :: bs => leadMatch needle (b :: bs) || subMatch needle bs

/-- String.prototype.includes. -/
def containsSub (needle hay : String) : Bool :=
  subMatch needle.toList hay.toList

/-- String.prototype.toLowerCase as the character-wise lowering map (the
rate-limit patterns searched for are plain ASCII). -/
def jsToLower (s : String) : String :=
  String.mk (s.data.map Char.toLower)

/-- isPaginationLimitError: status exactly 422 and the message (error
message, falling back to the response message) contains pagination. -/
def isPaginationLimitError (e : JsError) : Bool :=
  e.status = some 422 &&
    containsSub "pagination" (firstTruthyString e.message e.responseMessage)

/-- isRateLimitError: status 403 or 429, or a lowercased message containing
a rate-limit phrase. -/
def isRateLimitError (e : JsError) : Bool :=
  let status := firstTruthyStatus e.status e.responseStatus
  let message := jsToLower (firstTruthyString e.message e.responseMessage)
  status = some 403 || status = some 429 ||
    containsSub "rate limit" message || containsSub "api rate limit" message

/-- What the catch block of every REST harvester (stars, forks, issues,
PRs, contributors, commits) does with an error: first the pagination-limit
test (break with the partial result and resume marker), then the rate-limit
test (wait and retry the same page), otherwise re-throw. -/
inductive RestCatchAction where
  | breakCeiling
  | retryAfterWait
  | throwError
deriving DecidableEq, Repr

/-- The classification order shared verbatim by all six REST catch blocks. -/
def restCatchAction (e : JsError) : RestCatchAction :=
  if isPaginationLimitError e then .breakCeiling
  else if isRateLimitError e then .retryAfterWait
  else .throwError

/-- The rate-limit test of the GraphQL stargazers catch block:
error.message?.includes with no lowercasing, or status 403. -/
def isGraphQLRateLimitStop (e : JsError) : Bool :=
  (match e.message with
   | some m => containsSub "rate limit" m
   | none => false) || e.status = some 403

/-- What the catch block of fetchAllStargazersGraphQL does with an error:
either a rate-limit stop (save progress and break) or a transient retry;
there is no pagination-ceiling branch. -/
inductive GraphQLCatchAction where
  | rateLimitStop
  | transientRetry
deriving DecidableEq, Repr

def graphqlCatchAction (e : JsError) : GraphQLCatchAction :=
  if isGraphQLRateLimitStop e then .rateLimitStop else .transientRetry

end Errors

/-! ### The GraphQL stargazers retry loop (src/unnamed/part_003,
fetchAllStargazersGraphQL)

The while loop is modelled as a state machine driven by a script mapping
the index of each attempted request to its outcome. The proactive
rate-limit wait inside a successful iteration changes none of the state
below (it only sleeps and reports progress) and is therefore not recorded.
The source loop carries no fuel; the fuel argument here only bounds the
number of unrolled iterations, and every theorem supplies enough fuel for
the execution it describes. -/

namespace Gql

/-- One successful GraphQL page: the star edges, the page cursor
information and the inline rate-limit quota. -/
structure GqlPage where
  edges : List Stargazer
  endCursor : Option String
  hasNextPage : Bool
  remaining : Nat
deriving DecidableEq, Repr

/-- The mutable state of fetchAllStargazersGraphQL, plus the count of
requests issued and the log of retry backoff sleeps (milliseconds). -/
structure GqlState where
  stargazers : List Stargazer
  cursor : Option String
  lastCursor : Option String
  hasNextPage : Bool
  retryCount : Nat
  hitRateLimit : Bool
  calls : Nat
  retrySleeps : List Int
deriving DecidableEq, Repr

/-- The state on entry to the while loop, from a resume cursor (or none
for a full fetch). -/
def gqlInit (startCursor : Option String) : GqlState :=
  { stargazers := []
    cursor := startCursor
    lastCursor := startCursor
    hasNextPage := true
    retryCount := 0
    hitRateLimit := false
    calls := 0
    retrySleeps := [] }

/-- One loop iteration body: issue the next request; on success append the
edges, advance the cursors and reset retryCount, then continue; on a
rate-limit error set hitRateLimit and break; on any other error increment
retryCount, break when it reaches 10 (maxRetries), otherwise sleep 5000 ms
and retry the same cursor. -/
def gqlHandle (script : Nat → Except JsError GqlPage)
    (continue0 : GqlState → GqlState) (st : GqlState) : GqlState :=
  match script st.calls with
  | .ok page =>
    continue0
      { st with
        stargazers := st.stargazers ++ page.edges
        lastCursor := page.endCursor
        hasNextPage := page.hasNextPage
        cursor := page.endCursor
        retryCount := 0
        calls := st.calls + 1 }
  | .error e =>
    if Errors.isGraphQLRateLimitStop e then
      { st with hitRateLimit := true, calls := st.calls + 1 }
    else if st.retryCount + 1 ≥ 10 then
      { st with retryCount := st.retryCount + 1, calls := st.calls + 1 }
    else
      continue0
        { st with
          retryCount := st.retryCount + 1
          calls := st.calls + 1
          retrySleeps := st.retrySleeps ++ [5000] }

/-- The while loop: while hasNextPage and retryCount < maxRetries (10),
run one iteration body. -/
def gqlLoop (script : Nat → Except JsError GqlPage) : Nat → GqlState → GqlState
  | 0, st => st
  | fuel + 1, st =>
    if st.hasNextPage ∧ st.retryCount < 10 then
      gqlHandle script (gqlLoop script fuel) st
    else st

/-- The object fetchAllStargazersGraphQL returns, read off the final
loop state. -/
structure GqlResult where
  stargazers : List Stargazer
  lastCursor : Option String
  hasMorePages : Bool
  hitRateLimit : Bool
deriving DecidableEq, Repr

def gqlResult (st : GqlState) : GqlResult :=
  { stargazers := st.stargazers
    lastCursor := st.lastCursor
    hasMorePages := st.hasNextPage
    hitRateLimit := st.hitRateLimit }

/-- fetchAllStargazersGraphQL as a function of the response script, the
resume cursor and the unrolling fuel. -/
def fetchAllStargazersGraphQL (script : Nat → Except JsError GqlPage)
    (startCursor : Option String) (fuel : Nat) : GqlResult :=
  gqlResult (gqlLoop script fuel (gqlInit startCursor))

end Gql

/-! ### The fetch orchestrator (src/App.jsx fetchData)

fetchData is an async function whose body is one try/catch; the catch only
records the error message and deliberately leaves the persisted inProgress
flag untouched. Its effects are modelled as the ordered list of the
operations the try block performs; an interruption (a thrown error) cuts
the list to a prefix. The helpers updateFetchProgress and saveRepoToCache
swallow their own storage errors and never throw, so the first operation
always completes once started. -/

namespace Orchestrator

/-- The externally visible operations of one fetchData run, in program
order. setInProgress b is the updateFetchProgress call persisting the
inProgress flag; the incremental onSave callbacks fired during harvestAll
persist inProgress as true again and so never lower the flag. -/
inductive FetchOp where
  | setInProgress (b : Bool)
  | fetchRepoInfo
  | harvestAll
  | aggregate
  | readCache
  | mergeWithCache
  | saveCache
deriving DecidableEq, Repr

/-- The operation list of the try block of fetchData: mark in progress,
read repository metadata, run the five harvesters in parallel, aggregate,
read and merge the cache, save the merged series with the cursor state,
and only then clear the flag. -/
def fetchDataOps : List FetchOp :=
  [.setInProgress true, .fetchRepoInfo, .harvestAll, .aggregate,
   .readCache, .mergeWithCache, .saveCache, .setInProgress false]

/-- The persisted inProgress flag after a sequence of operations has
executed, starting from whatever value was persisted before the run. -/
def flagAfter (initial : Bool) (ops : List FetchOp) : Bool :=
  ops.foldl
    (fun f op =>
      match op with
      | .setInProgress b => b
      | _ => f)
    initial

end Orchestrator

/-! ## Proofs -/

/-! ### Generic facts about the merge building blocks -/

namespace Merge

theorem sortByDate_perm (l : List DailyMetricPoint) : List.Perm (sortByDate l) l :=
  List.mergeSort_perm l _

theorem sortByDate_pairwise (l : List DailyMetricPoint) :
    (sortByDate l).Pairwise (fun a b => a.date ≤ b.date) := by
  have h := @List.sorted_mergeSort DailyMetricPoint
    (fun a b => decide (a.date ≤ b.date))
    (fun a b c h1 h2 => by simp at *; omega)
    (fun a b => by simp [Nat.le_total]) l
  simpa [sortByDate, List.Sorted] using h

theorem datesNodup_of_perm {l1 l2 : List DailyMetricPoint} (hp : List.Perm l1 l2)
    (h : datesNodup l1) : datesNodup l2 := by
  unfold datesNodup at *
  refine (hp.pairwise_iff ?_).mp h
  intro a b hab hd
  exact hab hd.symm

theorem pairwise_date_lt {l : List DailyMetricPoint}
    (hle : l.Pairwise (fun a b => a.date ≤ b.date)) (hne : datesNodup l) :
    l.Pairwise (fun a b => a.date < b.date) :=
  (hle.and hne).imp (fun h => Nat.lt_of_le_of_ne h.1 h.2)

theorem eq_of_perm_sorted_nodup {l1 l2 : List DailyMetricPoint}
    (hp : List.Perm l1 l2) (h1 : l1.Pairwise (fun a b => a.date ≤ b.date))
    (h2 : l2.Pairwise (fun a b => a.date ≤ b.date)) (hn : datesNodup l1) : l1 = l2 := by
  haveI : IsAntisymm DailyMetricPoint (fun a b => a.date < b.date) :=
    ⟨fun a b ha hb => absurd hb (Nat.lt_asymm ha)⟩
  exact List.eq_of_perm_of_sorted hp (pairwise_date_lt h1 hn)
    (pairwise_date_lt h2 (datesNodup_of_perm hp hn))

theorem mapSet_of_not_mem (acc : List DailyMetricPoint) (p : DailyMetricPoint)
    (h : ∀ q ∈ acc, q.date ≠ p.date) : mapSet acc p = acc ++ [p] := by
  unfold mapSet
  have hc : ¬ (acc.any (fun q => decide (q.date = p.date)) = true) := by
    simp only [List.any_eq_true, decide_eq_true_eq]
    rintro ⟨q, hq, hd⟩
    exact h q hq hd
  rw [if_neg hc]

theorem foldl_mapSet_eq (l : List DailyMetricPoint) (hn : datesNodup l) :
    ∀ acc, (∀ p ∈ l, ∀ q ∈ acc, q.date ≠ p.date) → l.foldl mapSet acc = acc ++ l := by
  induction l with
  | nil => intro acc _; simp
  | cons p rest ih =>
    intro acc hacc
    have hstep : mapSet acc p = acc ++ [p] :=
      mapSet_of_not_mem acc p (fun q hq => hacc p (by simp) q hq)
    have hrest : rest.foldl mapSet (acc ++ [p]) = (acc ++ [p]) ++ rest := by
      refine ih hn.tail (acc ++ [p]) ?_
      intro x hx q hq
      rcases List.mem_append.mp hq with hq | hq
      · exact hacc x (by simp [hx]) q hq
      · have : q = p := by simpa using hq
        subst this
        exact (List.pairwise_cons.mp hn).1 x hx
    simp only [List.foldl_cons, hstep, hrest, List.append_assoc, List.singleton_append]

theorem lookupDate_date_eq {l : List DailyMetricPoint} {d : Nat} {p : DailyMetricPoint}
    (h : lookupDate l d = some p) : p.date = d := by
  have := List.find?_some h
  simpa using this

theorem lookupDate_mem {l : List DailyMetricPoint} {d : Nat} {p : DailyMetricPoint}
    (h : lookupDate l d = some p) : p ∈ l :=
  List.mem_of_find?_eq_some h

theorem lookupDate_eq_none {l : List DailyMetricPoint} {d : Nat} :
    lookupDate l d = none ↔ ∀ p ∈ l, p.date ≠ d := by
  unfold lookupDate
  rw [List.find?_eq_none]
  simp

theorem lookupDate_self {l : List DailyMetricPoint} (hn : datesNodup l)
    {a : DailyMetricPoint} (ha : a ∈ l) : lookupDate l a.date = some a := by
  induction l with
  | nil => cases ha
  | cons x rest ih =>
    rcases List.mem_cons.mp ha with rfl | ha2
    · unfold lookupDate
      simp [List.find?]
    · have hx : x.date ≠ a.date := (List.pairwise_cons.mp hn).1 a ha2
      have hd : decide (x.date = a.date) = false := by simp [hx]
      unfold lookupDate at *
      simp only [List.find?, hd]
      exact ih hn.tail ha2

theorem lookupDate_append (l1 l2 : List DailyMetricPoint) (d : Nat) :
    lookupDate (l1 ++ l2) d = (lookupDate l1 d).or (lookupDate l2 d) := by
  unfold lookupDate
  exact List.find?_append

theorem updBy_date (B : List DailyMetricPoint) (a : DailyMetricPoint) :
    (updBy B a).date = a.date := by
  unfold updBy
  cases h : lookupDate B a.date with
  | none => rfl
  | some b => simpa [combinePoints] using lookupDate_date_eq h

theorem lookupDate_singleton (b : DailyMetricPoint) (d : Nat) :
    lookupDate [b] d = if b.date = d then some b else none := by
  unfold lookupDate
  by_cases h : b.date = d
  · have hd : decide (b.date = d) = true := by simp [h]
    simp [List.find?, hd, h]
  · have hd : decide (b.date = d) = false := by simp [h]
    simp [List.find?, hd, h]

theorem combinePoints_date (a b : DailyMetricPoint) : (combinePoints a b).date = b.date := rfl

theorem combinePoints_self (a : DailyMetricPoint) : combinePoints a a = doubleSF a := by
  cases a
  simp [combinePoints, doubleSF, max_self, two_mul]

theorem lookupDate_map_updBy (A B : List DailyMetricPoint) (d : Nat) :
    lookupDate (A.map (updBy B)) d = (lookupDate A d).map (updBy B) := by
  induction A with
  | nil => rfl
  | cons a rest ih =>
    unfold lookupDate at *
    by_cases h : a.date = d
    · have h1 : decide ((updBy B a).date = d) = true := by simp [updBy_date, h]
      have h2 : decide (a.date = d) = true := by simp [h]
      simp only [List.map_cons, List.find?, h1, h2]
      rfl
    · have h1 : decide ((updBy B a).date = d) = false := by simp [updBy_date, h]
      have h2 : decide (a.date = d) = false := by simp [h]
      simp only [List.map_cons, List.find?, h1, h2]
      exact ih

/-- The first phase of mergeDailyMetrics in closed form: folding the new
series into the map holding the existing series combines each existing
point with the matching new date and appends the new points whose date the
existing series does not carry, preserving order. -/
theorem buildMap_char (A : List DailyMetricPoint) (hA : datesNodup A)
    (B : List DailyMetricPoint) (hB : datesNodup B) :
    B.foldl mergeStep A =
      A.map (updBy B) ++ B.filter (fun x => (lookupDate A x.date).isNone) := by
  revert hB
  induction B using List.reverseRecOn with
  | nil =>
    intro _
    have h1 : A.map (updBy []) = A := by
      have h2 : A.map (updBy []) = A.map id := List.map_congr_left (fun a _ => rfl)
      rw [h2, List.map_id]
    simp [h1]
  | append_singleton B1 b ih =>
    intro hB
    have hsplit : datesNodup B1 ∧ ∀ x ∈ B1, x.date ≠ b.date := by
      unfold datesNodup at hB
      rw [List.pairwise_append] at hB
      exact ⟨hB.1, fun x hx => hB.2.2 x hx b (by simp)⟩
    obtain ⟨hB1, hsep⟩ := hsplit
    rw [List.foldl_append]
    rw [ih hB1]
    simp only [List.foldl_cons, List.foldl_nil]
    have hF1dates : ∀ x ∈ B1.filter (fun x => (lookupDate A x.date).isNone),
        x.date ≠ b.date := fun x hx => hsep x (List.mem_of_mem_filter hx)
    have hsame : ∀ a : DailyMetricPoint, a.date ≠ b.date →
        updBy (B1 ++ [b]) a = updBy B1 a := by
      intro a ha
      unfold updBy
      rw [lookupDate_append, lookupDate_singleton,
        if_neg (fun hd => ha hd.symm), Option.or_none]
    cases hla : lookupDate A b.date with
    | some a0 =>
      have ha0date : a0.date = b.date := lookupDate_date_eq hla
      have ha0upd : updBy B1 a0 = a0 := by
        unfold updBy
        rw [ha0date, lookupDate_eq_none.mpr (fun x hx => hsep x hx)]
      have hfind : lookupDate (A.map (updBy B1) ++
          B1.filter (fun x => (lookupDate A x.date).isNone)) b.date = some a0 := by
        rw [lookupDate_append, lookupDate_map_updBy, hla]
        simp [ha0upd, Option.or]
      have hstep : mergeStep (A.map (updBy B1) ++
          B1.filter (fun x => (lookupDate A x.date).isNone)) b =
          mapSet (A.map (updBy B1) ++
            B1.filter (fun x => (lookupDate A x.date).isNone)) (combinePoints a0 b) := by
        unfold mergeStep
        rw [show (A.map (updBy B1) ++
            B1.filter (fun x => (lookupDate A x.date).isNone)).find?
            (fun q => decide (q.date = b.date)) = some a0 from hfind]
      rw [hstep]
      unfold mapSet
      have hpdate : (combinePoints a0 b).date = b.date := rfl
      have hany : ((A.map (updBy B1) ++
          B1.filter (fun x => (lookupDate A x.date).isNone)).any
          (fun q => decide (q.date = (combinePoints a0 b).date))) = true := by
        simp only [List.any_eq_true, decide_eq_true_eq, hpdate]
        refine ⟨updBy B1 a0, ?_, ?_⟩
        · exact List.mem_append_left _ (List.mem_map_of_mem _ (lookupDate_mem hla))
        · rw [ha0upd, ha0date]
      rw [if_pos hany]
      rw [List.map_append, List.filter_append]
      congr 1
      · rw [List.map_map]
        refine List.map_congr_left ?_
        intro a haA
        simp only [Function.comp_apply]
        by_cases hd : a.date = b.date
        · have haeq : a = a0 := by
            have h1 := lookupDate_self hA haA
            rw [hd, hla] at h1
            exact Option.some_injective _ h1.symm
          subst haeq
          have hc : (updBy B1 a).date = (combinePoints a b).date := by
            rw [updBy_date, hpdate]
            exact hd
          rw [ha0upd, if_pos (by rw [hpdate]; exact hd)]
          unfold updBy
          rw [lookupDate_append,
            lookupDate_eq_none.mpr (fun x hx => hd ▸ hsep x hx),
            lookupDate_singleton, if_pos hd.symm]
          rfl
        · have hc : ¬ ((updBy B1 a).date = (combinePoints a0 b).date) := by
            rw [updBy_date, hpdate]
            exact hd
          rw [if_neg hc]
          exact (hsame a hd).symm
      · have hbf : List.filter (fun x => (lookupDate A x.date).isNone) [b] = [] := by
          simp [List.filter_cons, hla]
        rw [hbf, List.append_nil]
        have h2 : (B1.filter (fun x => (lookupDate A x.date).isNone)).map
            (fun q => if q.date = (combinePoints a0 b).date then combinePoints a0 b else q) =
            (B1.filter (fun x => (lookupDate A x.date).isNone)).map id :=
          List.map_congr_left (fun x hx =>
            if_neg (fun hd => hF1dates x hx (by rw [← hpdate]; exact hd)))
        rw [h2, List.map_id]
    | none =>
      have hAdates : ∀ a ∈ A, a.date ≠ b.date := lookupDate_eq_none.mp hla
      have hnomatch : ∀ q ∈ A.map (updBy B1) ++
          B1.filter (fun x => (lookupDate A x.date).isNone), q.date ≠ b.date := by
        intro q hq
        rcases List.mem_append.mp hq with hq | hq
        · obtain ⟨a, haA, rfl⟩ := List.mem_map.mp hq
          rw [updBy_date]
          exact hAdates a haA
        · exact hF1dates q hq
      have hstep : mergeStep (A.map (updBy B1) ++
          B1.filter (fun x => (lookupDate A x.date).isNone)) b =
          mapSet (A.map (updBy B1) ++
            B1.filter (fun x => (lookupDate A x.date).isNone)) b := by
        unfold mergeStep
        rw [show (A.map (updBy B1) ++
            B1.filter (fun x => (lookupDate A x.date).isNone)).find?
            (fun q => decide (q.date = b.date)) = none from lookupDate_eq_none.mpr hnomatch]
      rw [hstep]
      rw [mapSet_of_not_mem _ _ hnomatch]
      rw [List.filter_append]
      have hbkeep : List.filter (fun x => (lookupDate A x.date).isNone) [b] = [b] := by
        simp [List.filter_cons, hla]
      rw [hbkeep]
      rw [show A.map (updBy (B1 ++ [b])) = A.map (updBy B1) from
        List.map_congr_left (fun a haA => hsame a (hAdates a haA))]
      simp [List.append_assoc]

/-- mergeDailyMetrics on well-formed series, with both fold phases in
closed form. -/
theorem mergeDailyMetrics_eq (A B : List DailyMetricPoint)
    (hA : datesNodup A) (hB : datesNodup B) :
    mergeDailyMetrics A B = reintegrate none 0 0 (sortByDate
      (A.map (updBy B) ++ B.filter (fun x => (lookupDate A x.date).isNone))) := by
  have h1 : A.foldl mapSet [] = A := by
    simpa using foldl_mapSet_eq A hA [] (by simp)
  show reintegrate none 0 0 (sortByDate (B.foldl mergeStep (A.foldl mapSet []))) = _
  rw [h1, buildMap_char A hA B hB]

/-- With disjoint date sets no per-date combination fires: the map phase
produces the concatenation. -/
theorem buildMap_disjoint (A B : List DailyMetricPoint)
    (hA : datesNodup A) (hB : datesNodup B)
    (hdisj : ∀ p ∈ A, ∀ q ∈ B, p.date ≠ q.date) :
    B.foldl mergeStep A = A ++ B := by
  rw [buildMap_char A hA B hB]
  congr 1
  · have h1 : A.map (updBy B) = A.map id := by
      refine List.map_congr_left ?_
      intro a haA
      unfold updBy
      rw [lookupDate_eq_none.mpr (fun q hq => (hdisj a haA q hq).symm)]
      rfl
    rw [h1, List.map_id]
  · refine List.filter_eq_self.mpr ?_
    intro x hx
    rw [lookupDate_eq_none.mpr (fun p hp => hdisj p hp x hx)]
    rfl

/-- Merging a series with itself doubles every point in the map phase. -/
theorem buildMap_self (A : List DailyMetricPoint) (hA : datesNodup A) :
    A.foldl mergeStep A = A.map doubleSF := by
  rw [buildMap_char A hA A hA]
  have h1 : A.map (updBy A) = A.map doubleSF := by
    refine List.map_congr_left ?_
    intro a haA
    unfold updBy
    rw [lookupDate_self hA haA]
    exact combinePoints_self a
  have h2 : A.filter (fun x => (lookupDate A x.date).isNone) = [] := by
    refine List.filter_eq_nil_iff.mpr ?_
    intro x hx
    rw [lookupDate_self hA hx]
    simp
  rw [h1, h2, List.append_nil]

/-- Every adjacent pair of the re-derivation output has non-decreasing
totalStars and totalForks: the added increment is clamped at zero. -/
theorem reintegrate_chain (l : List DailyMetricPoint) :
    ∀ (prev : Option DailyMetricPoint) (rs rf : Int),
      List.Chain' (fun p q => p.totalStars ≤ q.totalStars ∧ p.totalForks ≤ q.totalForks)
        (reintegrate prev rs rf l) := by
  induction l with
  | nil => intro prev rs rf; simp [reintegrate]
  | cons day rest ih =>
    intro prev rs rf
    rw [reintegrate]
    rw [List.chain'_cons']
    refine ⟨?_, ih _ _ _⟩
    intro y hy
    cases rest with
    | nil => simp [reintegrate] at hy
    | cons day2 rest2 =>
      rw [reintegrate] at hy
      simp only [List.head?_cons, Option.mem_def, Option.some.injEq] at hy
      subst hy
      constructor
      · exact le_add_of_nonneg_right (le_max_left 0 _)
      · exact le_add_of_nonneg_right (le_max_left 0 _)

/-- Every point of the re-derivation output takes its date and its six
non-additive counters verbatim from a point of the input list. -/
theorem reintegrate_mem (l : List DailyMetricPoint) :
    ∀ (prev : Option DailyMetricPoint) (rs rf : Int) (p : DailyMetricPoint),
      p ∈ reintegrate prev rs rf l → ∃ d ∈ l, p.date = d.date ∧
        p.totalContributors = d.totalContributors ∧
        p.totalIssuesOpened = d.totalIssuesOpened ∧
        p.totalIssuesClosed = d.totalIssuesClosed ∧
        p.totalPRsOpened = d.totalPRsOpened ∧
        p.totalPRsClosed = d.totalPRsClosed ∧
        p.totalPRsMerged = d.totalPRsMerged := by
  induction l with
  | nil => intro prev rs rf p hp; simp [reintegrate] at hp
  | cons day rest ih =>
    intro prev rs rf p hp
    rw [reintegrate] at hp
    rcases List.mem_cons.mp hp with rfl | hp2
    · exact ⟨day, by simp, rfl, rfl, rfl, rfl, rfl, rfl, rfl⟩
    · obtain ⟨d, hd, hrest⟩ := ih _ _ _ p hp2
      exact ⟨d, by simp [hd], hrest⟩

/-- Doubling the additive counters commutes with the re-derivation. -/
theorem reintegrate_double (l : List DailyMetricPoint) :
    ∀ (prev : Option DailyMetricPoint) (rs rf : Int),
      reintegrate (prev.map doubleSF) (2 * rs) (2 * rf) (l.map doubleSF) =
        (reintegrate prev rs rf l).map doubleSF := by
  have hmax : ∀ x : Int, max 0 (2 * x) = 2 * max 0 x := by
    intro x
    rcases le_total x 0 with h | h
    · rw [max_eq_left (by linarith), max_eq_left h, mul_zero]
    · rw [max_eq_right (by linarith), max_eq_right h]
  induction l with
  | nil => intro prev rs rf; simp [reintegrate]
  | cons day rest ih =>
    intro prev rs rf
    rw [List.map_cons, reintegrate, reintegrate]
    have hsinc : starsIncOf (prev.map doubleSF) (doubleSF day) = 2 * starsIncOf prev day := by
      cases prev with
      | none => rfl
      | some p =>
        show max 0 ((doubleSF day).totalStars - (doubleSF p).totalStars) =
          2 * max 0 (day.totalStars - p.totalStars)
        rw [show (doubleSF day).totalStars - (doubleSF p).totalStars =
          2 * (day.totalStars - p.totalStars) from by simp [doubleSF]; ring, hmax]
    have hfinc : forksIncOf (prev.map doubleSF) (doubleSF day) = 2 * forksIncOf prev day := by
      cases prev with
      | none => rfl
      | some p =>
        show max 0 ((doubleSF day).totalForks - (doubleSF p).totalForks) =
          2 * max 0 (day.totalForks - p.totalForks)
        rw [show (doubleSF day).totalForks - (doubleSF p).totalForks =
          2 * (day.totalForks - p.totalForks) from by simp [doubleSF]; ring, hmax]
    rw [hsinc, hfinc]
    congr 1
    · cases day
      simp [doubleSF, DailyMetricPoint.mk.injEq, mul_add]
    · rw [show (2 : Int) * rs + 2 * starsIncOf prev day =
          2 * (rs + starsIncOf prev day) from by ring,
        show (2 : Int) * rf + 2 * forksIncOf prev day =
          2 * (rf + forksIncOf prev day) from by ring]
      exact ih (some day) _ _

theorem doubleSF_date (p : DailyMetricPoint) : (doubleSF p).date = p.date := rfl

theorem datesNodup_map_doubleSF {A : List DailyMetricPoint} (hA : datesNodup A) :
    datesNodup (A.map doubleSF) := by
  unfold datesNodup at *
  rw [List.pairwise_map]
  exact hA.imp (fun h => by simpa [doubleSF_date] using h)

/-- Sorting by date commutes with doubling the additive counters, since
doubling preserves dates and dates are distinct. -/
theorem sortByDate_map_doubleSF (A : List DailyMetricPoint) (hA : datesNodup A) :
    sortByDate (A.map doubleSF) = (sortByDate A).map doubleSF := by
  refine eq_of_perm_sorted_nodup ?_ (sortByDate_pairwise _) ?_ ?_
  · exact (sortByDate_perm _).trans ((sortByDate_perm A).symm.map doubleSF)
  · rw [List.pairwise_map]
    exact (sortByDate_pairwise A).imp (fun h => by simpa [doubleSF_date] using h)
  · exact datesNodup_of_perm (sortByDate_perm _).symm (datesNodup_map_doubleSF hA)

/-- mergeDailyMetrics with an empty new series just sorts and re-derives
the existing series. -/
theorem mergeDailyMetrics_nil (A : List DailyMetricPoint) (hA : datesNodup A) :
    mergeDailyMetrics A [] = reintegrate none 0 0 (sortByDate A) := by
  have h1 : A.foldl mapSet [] = A := by
    simpa using foldl_mapSet_eq A hA [] (by simp)
  show reintegrate none 0 0
    (sortByDate (List.foldl mergeStep (A.foldl mapSet []) [])) = _
  rw [h1]
  rfl

end Merge

/-! ### Facts about the Daily Aggregator -/

namespace Agg

theorem daysRange_length (lo hi : Nat) : (daysRange lo hi).length = hi + 1 - lo := by
  simp [daysRange]

theorem mem_daysRange {lo hi d : Nat} : d ∈ daysRange lo hi ↔ lo ≤ d ∧ d ≤ hi := by
  unfold daysRange
  simp only [List.mem_map, List.mem_range]
  constructor
  · rintro ⟨i, hi2, rfl⟩
    omega
  · rintro ⟨h1, h2⟩
    exact ⟨d - lo, by omega, by omega⟩

theorem daysRange_getElem? (lo hi i : Nat) (h : i < hi + 1 - lo) :
    (daysRange lo hi)[i]? = some (lo + i) := by
  unfold daysRange
  rw [List.getElem?_map, List.getElem?_range h]
  rfl

theorem aggAux_map_date (lo hi : Nat) (ev : RawEvents) :
    ∀ (ds : List Nat) (t : Totals), (aggAux lo hi ev t ds).map (fun p => p.date) = ds := by
  intro ds
  induction ds with
  | nil => intro t; rfl
  | cons d ds2 ih =>
    intro t
    rw [aggAux, List.map_cons, ih]
    rfl

theorem aggAux_length (lo hi : Nat) (ev : RawEvents) (ds : List Nat) (t : Totals) :
    (aggAux lo hi ev t ds).length = ds.length := by
  have := aggAux_map_date lo hi ev ds t
  calc (aggAux lo hi ev t ds).length
      = ((aggAux lo hi ev t ds).map (fun p => p.date)).length := (List.length_map _ _).symm
    _ = ds.length := by rw [this]

theorem counterLe_add (t : Totals) (c : DayCounts) : counterLe (mkPoint d t) (mkPoint e (t.add c)) :=
  ⟨Nat.le_add_right _ _, Nat.le_add_right _ _, Nat.le_add_right _ _, Nat.le_add_right _ _,
   Nat.le_add_right _ _, Nat.le_add_right _ _, Nat.le_add_right _ _, Nat.le_add_right _ _⟩

theorem aggAux_chain (lo hi : Nat) (ev : RawEvents) :
    ∀ (ds : List Nat) (t : Totals), List.Chain' counterLe (aggAux lo hi ev t ds) := by
  intro ds
  induction ds with
  | nil => intro t; simp [aggAux]
  | cons d ds2 ih =>
    intro t
    rw [aggAux, List.chain'_cons']
    refine ⟨?_, ih _⟩
    intro y hy
    cases ds2 with
    | nil => simp [aggAux] at hy
    | cons d2 ds3 =>
      rw [aggAux] at hy
      simp only [List.head?_cons, Option.mem_def, Option.some.injEq] at hy
      subst hy
      exact counterLe_add _ _

theorem filter_filter_of_imp {α : Type} (l : List α) (p q : α → Bool)
    (h : ∀ a, p a = true → q a = true) : (l.filter q).filter p = l.filter p := by
  rw [List.filter_filter]
  refine List.filter_congr ?_
  intro a _
  cases hpa : p a
  · simp
  · simp [h a hpa]

theorem contribAssign_filter (lo hi : Nat) :
    ∀ (seen : List String) (commits : List CommitEvent),
      contribAssign lo hi seen
        (commits.filter (fun c => decide (lo ≤ c.day ∧ c.day ≤ hi))) =
      contribAssign lo hi seen commits := by
  intro seen commits
  induction commits generalizing seen with
  | nil => rfl
  | cons c rest ih =>
    by_cases hc : lo ≤ c.day ∧ c.day ≤ hi
    · rw [List.filter_cons_of_pos (by simpa using hc)]
      rw [contribAssign, contribAssign]
      cases c.author with
      | none => exact ih seen
      | some a =>
        dsimp only
        by_cases hs : lo ≤ c.day ∧ c.day ≤ hi ∧ ¬ (seen.contains a = true)
        · rw [if_pos hs, if_pos hs, ih]
        · rw [if_neg hs, if_neg hs, ih]
    · rw [List.filter_cons_of_neg (by simpa using hc)]
      rw [contribAssign]
      cases c.author with
      | none => exact ih seen
      | some a =>
        dsimp only
        rw [if_neg (by intro hcon; exact hc ⟨hcon.1, hcon.2.1⟩)]
        exact ih seen

theorem dayCounts_keepInRange (lo hi : Nat) (ev : RawEvents) (d : Nat)
    (h1 : lo ≤ d) (h2 : d ≤ hi) :
    dayCounts lo hi (keepInRange lo hi ev) d = dayCounts lo hi ev d := by
  unfold dayCounts keepInRange
  simp only [DayCounts.mk.injEq]
  refine ⟨?_, ?_, ?_, ?_, ?_, ?_, ?_, ?_⟩
  · rw [filter_filter_of_imp]
    intro s hs
    simp only [decide_eq_true_eq] at *
    omega
  · rw [filter_filter_of_imp]
    intro f hf
    simp only [decide_eq_true_eq] at *
    omega
  · rw [filter_filter_of_imp]
    intro i hi2
    simp only [decide_eq_true_eq] at hi2
    unfold issueTouchesRange
    simp only [Bool.or_eq_true, decide_eq_true_eq]
    left
    omega
  · rw [filter_filter_of_imp]
    intro i hi2
    simp only [decide_eq_true_eq] at hi2
    unfold issueTouchesRange
    simp only [Bool.or_eq_true, decide_eq_true_eq]
    right
    rw [hi2]
    simp
    omega
  · rw [filter_filter_of_imp]
    intro p hp
    simp only [decide_eq_true_eq] at hp
    unfold prTouchesRange
    simp only [Bool.or_eq_true, decide_eq_true_eq]
    left
    left
    omega
  · rw [filter_filter_of_imp]
    intro p hp
    simp only [decide_eq_true_eq] at hp
    unfold prTouchesRange
    simp only [Bool.or_eq_true, decide_eq_true_eq]
    left
    right
    rw [hp]
    simp
    omega
  · rw [filter_filter_of_imp]
    intro p hp
    simp only [decide_eq_true_eq] at hp
    unfold prTouchesRange
    simp only [Bool.or_eq_true, decide_eq_true_eq]
    right
    rw [hp]
    simp
    omega
  · rw [contribAssign_filter]

theorem aggAux_counts_congr (lo hi : Nat) (ev ev2 : RawEvents) :
    ∀ (ds : List Nat), (∀ d ∈ ds, dayCounts lo hi ev d = dayCounts lo hi ev2 d) →
      ∀ t, aggAux lo hi ev t ds = aggAux lo hi ev2 t ds := by
  intro ds
  induction ds with
  | nil => intro _ t; rfl
  | cons d ds2 ih =>
    intro hds t
    rw [aggAux, aggAux, hds d (by simp)]
    rw [ih (fun x hx => hds x (by simp [hx])) _]

end Agg

/-! ### Claims C2 and C8: the Daily Aggregator -/

/-- Claim C2: for every creation day lo, as-of day hi on or after it, and
every collection of raw events, the aggregator output has exactly one point
per calendar day from lo through hi (hi - lo + 1 points, the point at index
i carrying day lo + i, a day being covered precisely when it lies in the
range), and every one of the eight cumulative counters is non-decreasing
from each day to the next. -/
theorem c2_theorem (lo hi : Nat) (ev : RawEvents) (h : lo ≤ hi) :
    (Agg.aggregateToDaily lo hi ev).length = hi - lo + 1 ∧
    (∀ (i : Nat) (p : Agg.AggPoint),
      (Agg.aggregateToDaily lo hi ev)[i]? = some p → p.date = lo + i) ∧
    (∀ d : Nat, (∃ p ∈ Agg.aggregateToDaily lo hi ev, p.date = d) ↔ lo ≤ d ∧ d ≤ hi) ∧
    List.Chain' Agg.counterLe (Agg.aggregateToDaily lo hi ev) := by
  refine ⟨?_, ?_, ?_, Agg.aggAux_chain lo hi ev _ _⟩
  · rw [Agg.aggregateToDaily, Agg.aggAux_length, Agg.daysRange_length]
    omega
  · intro i p hp
    have hmap := Agg.aggAux_map_date lo hi ev (Agg.daysRange lo hi) Agg.Totals.zero
    have hlen : i < (Agg.aggregateToDaily lo hi ev).length := by
      by_contra hge
      rw [List.getElem?_eq_none (by omega)] at hp
      cases hp
    have h2 : ((Agg.aggregateToDaily lo hi ev).map (fun p => p.date))[i]? =
        (Agg.daysRange lo hi)[i]? := by rw [Agg.aggregateToDaily] at *; rw [hmap]
    rw [List.getElem?_map, hp] at h2
    have hlen2 : i < hi + 1 - lo := by
      have := Agg.aggAux_length lo hi ev (Agg.daysRange lo hi) Agg.Totals.zero
      rw [Agg.aggregateToDaily] at hlen
      rw [this, Agg.daysRange_length] at hlen
      exact hlen
    rw [Agg.daysRange_getElem? lo hi i hlen2] at h2
    simpa using h2
  · intro d
    have hmap := Agg.aggAux_map_date lo hi ev (Agg.daysRange lo hi) Agg.Totals.zero
    constructor
    · rintro ⟨p, hp, rfl⟩
      have : p.date ∈ (Agg.aggregateToDaily lo hi ev).map (fun p => p.date) :=
        List.mem_map_of_mem _ hp
      rw [Agg.aggregateToDaily] at this
      rw [hmap] at this
      exact Agg.mem_daysRange.mp this
    · intro hd
      have : d ∈ Agg.daysRange lo hi := Agg.mem_daysRange.mpr hd
      rw [← hmap] at this
      obtain ⟨p, hp, hpd⟩ := List.mem_map.mp this
      exact ⟨p, hp, hpd⟩

/-- Witness for claim C2: aggregating one star on day 1 over the range of
days 0 through 2 yields three dense points with non-decreasing counters. -/
theorem c2_witness :
    (Agg.aggregateToDaily 0 2 ⟨[⟨"alice", 1⟩], [], [], [], []⟩).length = 2 - 0 + 1 ∧
    (∀ (i : Nat) (p : Agg.AggPoint),
      (Agg.aggregateToDaily 0 2 ⟨[⟨"alice", 1⟩], [], [], [], []⟩)[i]? = some p →
        p.date = 0 + i) ∧
    (∀ d : Nat, (∃ p ∈ Agg.aggregateToDaily 0 2 ⟨[⟨"alice", 1⟩], [], [], [], []⟩,
      p.date = d) ↔ 0 ≤ d ∧ d ≤ 2) ∧
    List.Chain' Agg.counterLe (Agg.aggregateToDaily 0 2 ⟨[⟨"alice", 1⟩], [], [], [], []⟩) :=
  c2_theorem 0 2 ⟨[⟨"alice", 1⟩], [], [], [], []⟩ (by decide)

/-- Claim C8, counterexample. The claim requires a warning for every event
outside [creation day, as-of day]; aggregateToDaily contains no warning
emission at all: with a star event on day 0 against the range 5..10 the
event is discarded (the output equals the output on no events) but the
warning log is empty. -/
theorem c8_counterexample :
    Agg.aggregateToDailyWarnings 5 10 ⟨[⟨"alice", 0⟩], [], [], [], []⟩ = [] ∧
    Agg.aggregateToDaily 5 10 ⟨[⟨"alice", 0⟩], [], [], [], []⟩ =
      Agg.aggregateToDaily 5 10 ⟨[], [], [], [], []⟩ :=
  ⟨rfl, by decide⟩

/-- Claim C8, amended. An event whose timestamps all fall outside
[creation day, as-of day] contributes to no daily bucket: the aggregator
output is unchanged when all such events are removed; but the discard is
silent, the aggregator emitting no warning. -/
theorem c8_theorem : ∀ (lo hi : Nat) (ev : RawEvents),
    Agg.aggregateToDaily lo hi ev = Agg.aggregateToDaily lo hi (Agg.keepInRange lo hi ev) ∧
    Agg.aggregateToDailyWarnings lo hi ev = [] := by
  intro lo hi ev
  refine ⟨?_, rfl⟩
  rw [Agg.aggregateToDaily, Agg.aggregateToDaily]
  refine (Agg.aggAux_counts_congr lo hi (Agg.keepInRange lo hi ev) ev _ ?_ _).symm
  intro d hd
  have := Agg.mem_daysRange.mp hd
  exact Agg.dayCounts_keepInRange lo hi ev d this.1 this.2

/-! ### Facts about the Monthly Rollup -/

namespace Monthly

theorem jsRound_2500 : jsRound 2500 = 2500 := by
  unfold jsRound
  rw [Int.floor_eq_iff]
  constructor <;> norm_num

theorem rollupAux_getElem (l : List MonthAgg) :
    ∀ (prev : Option MonthAgg) (i : Nat),
      (rollupAux prev l)[i]? =
        (l[i]?).map (mkMonthly (match i with
          | 0 => prev
          | Nat.succ j => l[j]?)) := by
  induction l with
  | nil => intro prev i; cases i <;> rfl
  | cons m rest ih =>
    intro prev i
    cases i with
    | zero => simp [rollupAux]
    | succ j =>
      rw [rollupAux]
      rw [List.getElem?_cons_succ, List.getElem?_cons_succ]
      rw [ih (some m) j]
      cases j with
      | zero => simp
      | succ k => simp

theorem calcGrowthPct_char (current previous : ℤ) :
    (calcGrowthPct current (some previous) = none ↔ previous = 0) ∧
    calcGrowthPct current none = none ∧
    (previous ≠ 0 → calcGrowthPct current (some previous) =
      some ((jsRound (((current : ℚ) - previous) / previous * 10000) : ℚ) / 100)) := by
  unfold calcGrowthPct
  dsimp only
  refine ⟨?_, rfl, ?_⟩
  · by_cases hp : previous = 0
    · simp [hp]
    · simp [hp]
  · intro hp
    rw [if_neg hp]

end Monthly

/-! ### Claim C5: the Monthly Rollup -/

/-- Claim C5: in every output of calculateMonthlyMetrics, the first present
month has null change and null growth percentage; each later month computes
its growth percentage from its own and the previous present month-end
values through calcGrowthPct, which is null exactly when the previous value
is null or zero and otherwise round(((current - previous) / previous) *
10000) / 100; in particular previous 200 and current 250 give absolute
change 50 and percentage 25. -/
theorem c5_theorem (monthEndOf : Nat → Nat) (dailyMetrics : List DailyMetricPoint) :
    (∀ a, (Monthly.calculateMonthlyMetrics monthEndOf dailyMetrics)[0]? = some a →
      a.starsMomGrowthPct = none ∧ a.starsMomChange = none) ∧
    (∀ (i : Nat) (a b : Monthly.MonthlyMetricPoint),
      (Monthly.calculateMonthlyMetrics monthEndOf dailyMetrics)[i]? = some a →
      (Monthly.calculateMonthlyMetrics monthEndOf dailyMetrics)[i + 1]? = some b →
      b.starsMomGrowthPct = Monthly.calcGrowthPct b.starsAtMonthEnd (some a.starsAtMonthEnd) ∧
      b.forksMomGrowthPct = Monthly.calcGrowthPct b.forksAtMonthEnd (some a.forksAtMonthEnd) ∧
      b.issuesOpenedMomGrowthPct =
        Monthly.calcGrowthPct b.issuesOpenedAtMonthEnd (some a.issuesOpenedAtMonthEnd) ∧
      b.issuesClosedMomGrowthPct =
        Monthly.calcGrowthPct b.issuesClosedAtMonthEnd (some a.issuesClosedAtMonthEnd) ∧
      b.prsOpenedMomGrowthPct =
        Monthly.calcGrowthPct b.prsOpenedAtMonthEnd (some a.prsOpenedAtMonthEnd) ∧
      b.prsMergedMomGrowthPct =
        Monthly.calcGrowthPct b.prsMergedAtMonthEnd (some a.prsMergedAtMonthEnd) ∧
      b.contributorsMomGrowthPct =
        Monthly.calcGrowthPct b.contributorsAtMonthEnd (some a.contributorsAtMonthEnd) ∧
      b.starsMomChange = some (b.starsAtMonthEnd - a.starsAtMonthEnd)) ∧
    (∀ current previous : ℤ,
      (Monthly.calcGrowthPct current (some previous) = none ↔ previous = 0) ∧
      Monthly.calcGrowthPct current none = none ∧
      (previous ≠ 0 → Monthly.calcGrowthPct current (some previous) =
        some ((Monthly.jsRound (((current : ℚ) - previous) / previous * 10000) : ℚ) / 100))) ∧
    (Monthly.calcChange 250 (some 200) = some 50 ∧
      Monthly.calcGrowthPct 250 (some 200) = some 25) := by
  have hout : ∀ k : Nat, (Monthly.calculateMonthlyMetrics monthEndOf dailyMetrics)[k]? =
      ((Monthly.sortByMonthEnd (dailyMetrics.foldl (Monthly.groupStep monthEndOf) []))[k]?).map
        (Monthly.mkMonthly (match k with
          | 0 => none
          | Nat.succ j =>
            (Monthly.sortByMonthEnd (dailyMetrics.foldl (Monthly.groupStep monthEndOf) []))[j]?)) :=
    fun k => Monthly.rollupAux_getElem _ none k
  have houtS : ∀ i : Nat, (Monthly.calculateMonthlyMetrics monthEndOf dailyMetrics)[i + 1]? =
      ((Monthly.sortByMonthEnd (dailyMetrics.foldl (Monthly.groupStep monthEndOf) []))[i + 1]?).map
        (Monthly.mkMonthly
          ((Monthly.sortByMonthEnd (dailyMetrics.foldl (Monthly.groupStep monthEndOf) []))[i]?)) :=
    fun i => Monthly.rollupAux_getElem _ none (i + 1)
  refine ⟨?_, ?_, Monthly.calcGrowthPct_char, ?_⟩
  · intro a ha
    rw [hout 0] at ha
    obtain ⟨m0, _, rfl⟩ := Option.map_eq_some'.mp ha
    exact ⟨rfl, rfl⟩
  · intro i a b ha hb
    rw [hout i] at ha
    rw [houtS i] at hb
    obtain ⟨mi, hmi, rfl⟩ := Option.map_eq_some'.mp ha
    obtain ⟨mj, hmj, rfl⟩ := Option.map_eq_some'.mp hb
    rw [hmi]
    exact ⟨rfl, rfl, rfl, rfl, rfl, rfl, rfl, rfl⟩
  · refine ⟨by decide, ?_⟩
    unfold Monthly.calcGrowthPct
    dsimp only
    rw [if_neg (by norm_num)]
    congr 1
    have h1 : (((250 : ℤ) : ℚ) - ((200 : ℤ) : ℚ)) / ((200 : ℤ) : ℚ) * 10000 = 2500 := by
      norm_num
    rw [h1, Monthly.jsRound_2500]
    norm_num

unseal List.merge List.mergeSort in
/-- Witness for claim C5: the daily series with 200 stars on day 0 and 250
stars on day 3, rolled up with months of two days, has a first month with
null growth, a second month computing its growth from the two month-end
values, and the spec example values 50 and 25. -/
theorem c5_witness :
    ((Monthly.mkMonthly none ⟨0, 0, 200, 0, 0, 0, 0, 0, 0⟩).starsMomGrowthPct = none ∧
     (Monthly.mkMonthly none ⟨0, 0, 200, 0, 0, 0, 0, 0, 0⟩).starsMomChange = none) ∧
    (Monthly.mkMonthly (some ⟨0, 0, 200, 0, 0, 0, 0, 0, 0⟩)
        ⟨1, 3, 250, 0, 0, 0, 0, 0, 0⟩).starsMomGrowthPct =
      Monthly.calcGrowthPct
        (Monthly.mkMonthly (some ⟨0, 0, 200, 0, 0, 0, 0, 0, 0⟩)
          ⟨1, 3, 250, 0, 0, 0, 0, 0, 0⟩).starsAtMonthEnd
        (some (Monthly.mkMonthly none ⟨0, 0, 200, 0, 0, 0, 0, 0, 0⟩).starsAtMonthEnd) ∧
    Monthly.calcGrowthPct 250 (some 200) =
      some ((Monthly.jsRound ((((250 : ℤ) : ℚ) - ((200 : ℤ) : ℚ)) /
        ((200 : ℤ) : ℚ) * 10000) : ℚ) / 100) ∧
    Monthly.calcChange 250 (some 200) = some 50 ∧
    Monthly.calcGrowthPct 250 (some 200) = some 25 := by
  have H := c5_theorem (fun d => d / 2)
    [⟨0, 200, 0, 0, 0, 0, 0, 0, 0⟩, ⟨3, 250, 0, 0, 0, 0, 0, 0, 0⟩]
  exact ⟨H.1 _ rfl, (H.2.1 0 _ _ rfl rfl).1, (H.2.2.1 250 200).2.2 (by decide),
    H.2.2.2.1, H.2.2.2.2⟩

/-! ### Claim C4: rate-limit waits -/

/-- Claim C4, counterexample. The proactive wait of checkRateLimit (the
low-water branch for the REST APIs, which fires at remaining under 10, in
particular at remaining 0) adds a 1000 ms margin, not 5000 ms, and has no
1-hour cap: with resetAt 120 seconds ahead it waits 121000 ms, outside the
claimed [125000, 130000] band, and with resetAt 2 hours ahead it waits
7201000 ms, above 3600000 ms. -/
theorem c4_counterexample :
    RateLimit.checkRateLimitTriggers (some 0) = true ∧
    RateLimit.checkRateLimitWaitMs (some 120) 0 = 121000 ∧
    ¬ (125000 ≤ (121000 : Int)) ∧
    RateLimit.checkRateLimitWaitMs (some 7200) 0 = 7201000 ∧
    ¬ ((7201000 : Int) ≤ 3600000) := by
  refine ⟨rfl, by decide, by decide, by decide, by decide⟩

/-- Claim C4, amended. The reactive wait of handleRateLimit is
max(0, resetAt - now) plus a 5000 ms margin capped at 3600000 ms (60000 ms
when no reset header is present), so for resetAt 120 s ahead it returns
exactly 125000 ms and it never exceeds one hour; but the proactive waits
are different: checkRateLimit (REST low-water mark 10) waits
max(0, resetAt - now) + 1000 ms with no cap, and the GraphQL low-water wait
(mark 50) adds 5000 ms with no cap, both growing beyond every bound as
resetAt recedes. -/
theorem c4_theorem :
    (∀ (resetHeader : Option Nat) (now : Int),
      RateLimit.handleRateLimitWaitMs resetHeader now ≤ 3600000) ∧
    (∀ (reset : Nat) (now : Int), (reset : Int) * 1000 - now = 120000 →
      RateLimit.handleRateLimitWaitMs (some reset) now = 125000) ∧
    (∀ (reset : Nat) (now : Int), now ≤ (reset : Int) * 1000 →
      RateLimit.checkRateLimitWaitMs (some reset) now = (reset : Int) * 1000 - now + 1000) ∧
    (∀ bound : Int, ∃ reset : Nat, RateLimit.checkRateLimitWaitMs (some reset) 0 > bound) ∧
    (∀ bound : Int, ∃ resetAt : Int, RateLimit.graphqlProactiveWaitMs resetAt 0 > bound) := by
  refine ⟨?_, ?_, ?_, ?_, ?_⟩
  · intro resetHeader now
    unfold RateLimit.handleRateLimitWaitMs
    exact min_le_right _ _
  · intro reset now h
    unfold RateLimit.handleRateLimitWaitMs
    dsimp only
    rw [h]
    decide
  · intro reset now h
    unfold RateLimit.checkRateLimitWaitMs
    simp only [Option.getD_some]
    rw [max_eq_right (by omega)]
  · intro bound
    refine ⟨bound.toNat + 1, ?_⟩
    have h1 : bound ≤ (bound.toNat : Int) := Int.self_le_toNat bound
    have h2 : RateLimit.checkRateLimitWaitMs (some (bound.toNat + 1)) 0 ≥
        ((bound.toNat + 1 : Nat) : Int) * 1000 - 0 + 1000 := by
      unfold RateLimit.checkRateLimitWaitMs
      simp only [Option.getD_some]
      exact add_le_add_right (le_max_right _ _) 1000
    push_cast at h2
    omega
  · intro bound
    refine ⟨bound + 1, ?_⟩
    have h2 : RateLimit.graphqlProactiveWaitMs (bound + 1) 0 ≥ (bound + 1 - 0) + 5000 :=
      add_le_add_right (le_max_right _ _) 5000
    omega

/-- Witness for claim C4 at concrete inputs: the reactive wait hits the
example band and the cap, the proactive waits exceed one hour for distant
resets. -/
theorem c4_witness :
    RateLimit.handleRateLimitWaitMs (some 120) 0 = 125000 ∧
    RateLimit.checkRateLimitWaitMs (some 120) 0 = (120 : Int) * 1000 - 0 + 1000 ∧
    RateLimit.handleRateLimitWaitMs (some 999999999) 123 ≤ 3600000 ∧
    (∃ reset : Nat, RateLimit.checkRateLimitWaitMs (some reset) 0 > 3600000) ∧
    (∃ resetAt : Int, RateLimit.graphqlProactiveWaitMs resetAt 0 > 3600000) :=
  ⟨c4_theorem.2.1 120 0 (by decide), c4_theorem.2.2.1 120 0 (by decide),
   c4_theorem.1 (some 999999999) 123, c4_theorem.2.2.2.1 3600000, c4_theorem.2.2.2.2 3600000⟩

/-! ### Claim C6: classification of pagination-ceiling errors -/

/-- Claim C6, counterexample. The claim quantifies over every harvester,
but the GraphQL stargazers harvester has no pagination-ceiling branch at
all: its catch block tests only the rate-limit pattern, so a status-422
error whose message contains both pagination and rate limit is classified
as the rate-limit condition there, even though isPaginationLimitError
matches it. -/
theorem c6_counterexample :
    Errors.isPaginationLimitError
      ⟨some 422, none, some "pagination limit; secondary rate limit", none⟩ = true ∧
    Errors.isRateLimitError
      ⟨some 422, none, some "pagination limit; secondary rate limit", none⟩ = true ∧
    Errors.graphqlCatchAction
      ⟨some 422, none, some "pagination limit; secondary rate limit", none⟩ =
      Errors.GraphQLCatchAction.rateLimitStop := by
  refine ⟨by decide, by decide, by decide⟩

/-- Claim C6, amended. Every REST harvester (stars, forks, issues, PRs,
contributors, commits) runs isPaginationLimitError before the rate-limit
handler in its catch block, so every error with status 422 and a message
containing pagination is classified as the pagination ceiling (break with
partial result and resume marker) and never as the rate-limit condition,
even when the message also matches the rate-limit patterns; the GraphQL
stargazers harvester is the exception recorded in the counterexample. -/
theorem c6_theorem (e : JsError) (h422 : e.status = some 422)
    (hmsg : Errors.containsSub "pagination"
      (Errors.firstTruthyString e.message e.responseMessage) = true) :
    Errors.restCatchAction e = Errors.RestCatchAction.breakCeiling ∧
    Errors.restCatchAction e ≠ Errors.RestCatchAction.retryAfterWait := by
  have hp : Errors.isPaginationLimitError e = true := by
    unfold Errors.isPaginationLimitError
    rw [h422, hmsg]
    simp
  unfold Errors.restCatchAction
  rw [hp]
  exact ⟨by simp, by simp⟩

/-- Witness for claim C6: a concrete 422 error whose message holds both
pagination and rate limit text classifies as the ceiling in the REST
catch blocks. -/
theorem c6_witness :
    Errors.restCatchAction
      ⟨some 422, none, some "pagination limit; secondary rate limit", none⟩ =
      Errors.RestCatchAction.breakCeiling ∧
    Errors.restCatchAction
      ⟨some 422, none, some "pagination limit; secondary rate limit", none⟩ ≠
      Errors.RestCatchAction.retryAfterWait :=
  c6_theorem _ rfl (by decide)

/-! ### Claim C7: handling of transient errors -/

namespace Gql

theorem gqlHandle_error_retry (script : Nat → Except JsError GqlPage)
    (continue0 : GqlState → GqlState) (st : GqlState) (e : JsError)
    (he : script st.calls = Except.error e)
    (hrl : Errors.isGraphQLRateLimitStop e = false)
    (hlt : st.retryCount + 1 < 10) :
    gqlHandle script continue0 st = continue0
      { st with
        retryCount := st.retryCount + 1
        calls := st.calls + 1
        retrySleeps := st.retrySleeps ++ [5000] } := by
  have h1 : gqlHandle script continue0 st =
      (if Errors.isGraphQLRateLimitStop e then
        { st with hitRateLimit := true, calls := st.calls + 1 }
      else if st.retryCount + 1 ≥ 10 then
        { st with retryCount := st.retryCount + 1, calls := st.calls + 1 }
      else continue0
        { st with
          retryCount := st.retryCount + 1
          calls := st.calls + 1
          retrySleeps := st.retrySleeps ++ [5000] }) := by
    unfold gqlHandle
    rw [he]
  rw [h1, if_neg (by simp [hrl]), if_neg (by omega)]

theorem gqlHandle_error_exhaust (script : Nat → Except JsError GqlPage)
    (continue0 : GqlState → GqlState) (st : GqlState) (e : JsError)
    (he : script st.calls = Except.error e)
    (hrl : Errors.isGraphQLRateLimitStop e = false)
    (hge : st.retryCount + 1 ≥ 10) :
    gqlHandle script continue0 st =
      { st with retryCount := st.retryCount + 1, calls := st.calls + 1 } := by
  have h1 : gqlHandle script continue0 st =
      (if Errors.isGraphQLRateLimitStop e then
        { st with hitRateLimit := true, calls := st.calls + 1 }
      else if st.retryCount + 1 ≥ 10 then
        { st with retryCount := st.retryCount + 1, calls := st.calls + 1 }
      else continue0
        { st with
          retryCount := st.retryCount + 1
          calls := st.calls + 1
          retrySleeps := st.retrySleeps ++ [5000] }) := by
    unfold gqlHandle
    rw [he]
  rw [h1, if_neg (by simp [hrl]), if_pos hge]

/-- Driving the loop with a script that always fails transiently: from any
live state needing n more failures to reach 10, the loop performs exactly n
more requests with n - 1 backoff sleeps of 5000 ms and stops with the state
otherwise unchanged. -/
theorem gqlLoop_transient (script : Nat → Except JsError GqlPage)
    (hscript : ∀ k, ∃ e, script k = Except.error e ∧
      Errors.isGraphQLRateLimitStop e = false) :
    ∀ n : Nat, 1 ≤ n → ∀ st : GqlState, st.hasNextPage = true →
      st.retryCount + n = 10 → ∀ fuel, n ≤ fuel →
      gqlLoop script fuel st =
        { st with
          retryCount := 10
          calls := st.calls + n
          retrySleeps := st.retrySleeps ++ List.replicate (n - 1) 5000 } := by
  intro n
  induction n with
  | zero => intro h; exact absurd h (by omega)
  | succ m ih =>
    intro _ st hnext hrc fuel hfuel
    cases fuel with
    | zero => exact absurd hfuel (by omega)
    | succ f =>
      rw [gqlLoop, if_pos ⟨hnext, by omega⟩]
      obtain ⟨e, he, hrl⟩ := hscript st.calls
      cases m with
      | zero =>
        rw [gqlHandle_error_exhaust script _ st e he hrl (by omega)]
        have h10 : st.retryCount + 1 = 10 := by omega
        rw [h10]
        simp
      | succ k =>
        rw [gqlHandle_error_retry script _ st e he hrl (by omega)]
        have hih := ih (by omega)
          { st with
            retryCount := st.retryCount + 1
            calls := st.calls + 1
            retrySleeps := st.retrySleeps ++ [5000] }
          hnext (by show st.retryCount + 1 + (k + 1) = 10; omega) f (by omega)
        rw [hih]
        cases st with
        | mk s cu lc hn rc hr cl sl =>
          simp [GqlState.mk.injEq, List.append_assoc, List.replicate_succ]
          omega

end Gql

/-- Claim C7, counterexample. In every REST harvester a transient error
(neither a pagination-limit nor a rate-limit error) is re-thrown
immediately from the catch block: there is no retry at all, let alone 10
retries with 5-second backoff. -/
theorem c7_counterexample :
    Errors.isPaginationLimitError ⟨some 500, none, some "socket hang up", none⟩ = false ∧
    Errors.isRateLimitError ⟨some 500, none, some "socket hang up", none⟩ = false ∧
    Errors.restCatchAction ⟨some 500, none, some "socket hang up", none⟩ =
      Errors.RestCatchAction.throwError := by
  refine ⟨by decide, by decide, by decide⟩

/-- Claim C7, amended. Transient-error retry with bounded attempts exists
only in the GraphQL stargazers harvester: there, a script failing
transiently on every request drives the loop through exactly 10 attempts
at the same cursor with 9 fixed 5000 ms backoff sleeps, after which the
fetch stops and returns the partial result carrying the last confirmed
cursor as resume position (not flagged as a rate limit); the REST
harvesters re-throw a transient error immediately with no retry. -/
theorem c7_theorem :
    (∀ e : JsError, Errors.isPaginationLimitError e = false →
      Errors.isRateLimitError e = false →
      Errors.restCatchAction e = Errors.RestCatchAction.throwError) ∧
    (∀ (script : Nat → Except JsError Gql.GqlPage) (startCursor : Option String),
      (∀ k, ∃ e, script k = Except.error e ∧
        Errors.isGraphQLRateLimitStop e = false) →
      ∀ fuel, 10 ≤ fuel →
        Gql.gqlLoop script fuel (Gql.gqlInit startCursor) =
          { Gql.gqlInit startCursor with
            retryCount := 10
            calls := 10
            retrySleeps := List.replicate 9 5000 } ∧
        Gql.fetchAllStargazersGraphQL script startCursor fuel =
          { stargazers := []
            lastCursor := startCursor
            hasMorePages := true
            hitRateLimit := false }) := by
  constructor
  · intro e hpag hrate
    unfold Errors.restCatchAction
    rw [hpag, hrate]
    simp
  · intro script c0 hscript fuel hfuel
    have h1 := Gql.gqlLoop_transient script hscript 10 (by omega)
      (Gql.gqlInit c0) rfl rfl fuel hfuel
    have h2 : Gql.gqlLoop script fuel (Gql.gqlInit c0) =
        { Gql.gqlInit c0 with
          retryCount := 10
          calls := 10
          retrySleeps := List.replicate 9 5000 } := by
      rw [h1]
      simp [Gql.gqlInit]
    refine ⟨h2, ?_⟩
    unfold Gql.fetchAllStargazersGraphQL
    rw [h2]
    rfl

/-- Witness for claim C7: a concrete transient error is thrown by the REST
catch block, and the GraphQL loop under an always-failing script returns
the partial result with the start cursor after its retries. -/
theorem c7_witness :
    Errors.restCatchAction ⟨some 500, none, some "boom", none⟩ =
      Errors.RestCatchAction.throwError ∧
    Gql.fetchAllStargazersGraphQL
      (fun _ => Except.error ⟨some 500, none, some "boom", none⟩)
      (some "cursor123") 12 =
      { stargazers := []
        lastCursor := some "cursor123"
        hasMorePages := true
        hitRateLimit := false } := by
  refine ⟨c7_theorem.1 _ (by decide) (by decide), ?_⟩
  exact (c7_theorem.2 _ _ (fun k => ⟨_, rfl, by decide⟩) 12 (by omega)).2

/-! ### Claim C9: the persisted inProgress flag -/

/-- Claim C9: in the operation order of fetchData, the inProgress flag is
set to true by the first operation, before any harvesting; after every
proper prefix of the run (every error path: the catch block never touches
the flag) the persisted flag reads true; it reads false only after the
complete run, whose clearing write is the last operation, coming after the
save of the merged series and cursor state. -/
theorem c9_theorem :
    (∀ (initial : Bool) (k : Nat), 1 ≤ k → k < Orchestrator.fetchDataOps.length →
      Orchestrator.flagAfter initial (Orchestrator.fetchDataOps.take k) = true) ∧
    (∀ initial : Bool, Orchestrator.flagAfter initial Orchestrator.fetchDataOps = false) ∧
    (∀ k : Nat, Orchestrator.FetchOp.harvestAll ∈ Orchestrator.fetchDataOps.take k →
      Orchestrator.FetchOp.setInProgress true ∈ Orchestrator.fetchDataOps.take k) ∧
    (∀ k : Nat, Orchestrator.FetchOp.setInProgress false ∈ Orchestrator.fetchDataOps.take k →
      Orchestrator.FetchOp.saveCache ∈ Orchestrator.fetchDataOps.take k) := by
  refine ⟨?_, by decide, ?_, ?_⟩
  · intro initial k h1 h2
    have h2b : k < 8 := by simpa [Orchestrator.fetchDataOps] using h2
    interval_cases k <;> revert initial <;> decide
  · intro k hk
    rcases Nat.lt_or_ge k 8 with h | h
    · interval_cases k <;> revert hk <;> decide
    · rw [List.take_of_length_le (by simp [Orchestrator.fetchDataOps]; omega)] at hk ⊢
      decide
  · intro k hk
    rcases Nat.lt_or_ge k 8 with h | h
    · interval_cases k <;> revert hk <;> decide
    · rw [List.take_of_length_le (by simp [Orchestrator.fetchDataOps]; omega)] at hk ⊢
      decide

/-- Witness for claim C9: after three operations (flag write, metadata
fetch, harvest) of a run starting from a cleared flag, the persisted flag
reads true; after the full run it reads false. -/
theorem c9_witness :
    Orchestrator.flagAfter false (Orchestrator.fetchDataOps.take 3) = true ∧
    Orchestrator.flagAfter false Orchestrator.fetchDataOps = false ∧
    (Orchestrator.FetchOp.setInProgress false ∈ Orchestrator.fetchDataOps.take 8 →
      Orchestrator.FetchOp.saveCache ∈ Orchestrator.fetchDataOps.take 8) :=
  ⟨c9_theorem.1 false 3 (by decide) (by decide), c9_theorem.2.1 false, c9_theorem.2.2.2 8⟩

/-! ### Claims C1, C3, C10: the Merge Engine -/

unseal List.merge List.mergeSort in
/-- Claim C1, counterexample. The claim states that after the re-derivation
pass every cumulative counter of the merge output is monotonic
non-decreasing and that clamped negative increments are flagged as a
MergeInconsistency warning. Both parts fail on the code: merging a
one-point series holding 5 opened issues on day 0 with a one-point series
holding 3 opened issues on day 1 leaves totalIssuesOpened decreasing from 5
to 3 (only totalStars and totalForks are re-derived), and merging a series
with 5 stars on day 0 with one holding 3 stars on day 1 clamps the negative
stars increment to zero silently, with an empty warning log. -/
theorem c1_counterexample :
    Merge.mergeDailyMetrics [⟨0, 0, 0, 0, 5, 0, 0, 0, 0⟩] [⟨1, 0, 0, 0, 3, 0, 0, 0, 0⟩] =
      [⟨0, 0, 0, 0, 5, 0, 0, 0, 0⟩, ⟨1, 0, 0, 0, 3, 0, 0, 0, 0⟩] ∧
    ¬ ((5 : Int) ≤ 3) ∧
    Merge.mergeDailyMetrics [⟨0, 5, 0, 0, 0, 0, 0, 0, 0⟩] [⟨1, 3, 0, 0, 0, 0, 0, 0, 0⟩] =
      [⟨0, 5, 0, 0, 0, 0, 0, 0, 0⟩, ⟨1, 5, 0, 0, 0, 0, 0, 0, 0⟩] ∧
    Merge.mergeDailyMetricsWarnings [⟨0, 5, 0, 0, 0, 0, 0, 0, 0⟩]
      [⟨1, 3, 0, 0, 0, 0, 0, 0, 0⟩] = [] := by
  refine ⟨by decide, by decide, by decide, rfl⟩

/-- Claim C1, amended. The re-derivation pass of mergeDailyMetrics
integrates clamped per-day increments only for totalStars and totalForks,
so exactly those two counters are monotonic non-decreasing across
consecutive output dates for every pair of inputs; negative increments are
clamped to zero silently, the function emitting no warning. -/
theorem c1_theorem : ∀ existingMetrics newMetrics : List DailyMetricPoint,
    List.Chain' (fun p q => p.totalStars ≤ q.totalStars ∧ p.totalForks ≤ q.totalForks)
      (Merge.mergeDailyMetrics existingMetrics newMetrics) ∧
    Merge.mergeDailyMetricsWarnings existingMetrics newMetrics = [] := by
  intro A B
  exact ⟨Merge.reintegrate_chain _ none 0 0, rfl⟩

unseal List.merge List.mergeSort in
/-- Claim C3, counterexample. mergeDailyMetrics is not idempotent: on
overlapping dates it adds the cumulative totalStars values of the two
sides, so merging a one-point series holding 1 star with itself yields 2
stars. -/
theorem c3_counterexample :
    ¬ (Merge.mergeDailyMetrics [⟨0, 1, 0, 0, 0, 0, 0, 0, 0⟩] [⟨0, 1, 0, 0, 0, 0, 0, 0, 0⟩] =
      [⟨0, 1, 0, 0, 0, 0, 0, 0, 0⟩]) := by decide

/-- Claim C3, amended. For daily series with one point per date,
merge(A, B) on disjoint date sets is commutative; but merge(A, A) is not A:
it agrees with merge(A, []) except that totalStars and totalForks are
doubled, because overlapping dates add the two cumulative star and fork
totals before re-derivation. -/
theorem c3_theorem :
    (∀ A B : List DailyMetricPoint, datesNodup A → datesNodup B →
      (∀ p ∈ A, ∀ q ∈ B, p.date ≠ q.date) →
      Merge.mergeDailyMetrics A B = Merge.mergeDailyMetrics B A) ∧
    (∀ A : List DailyMetricPoint, datesNodup A →
      Merge.mergeDailyMetrics A A = (Merge.mergeDailyMetrics A []).map Merge.doubleSF) := by
  constructor
  · intro A B hA hB hdisj
    have h1 : A.foldl Merge.mapSet [] = A := by
      simpa using Merge.foldl_mapSet_eq A hA [] (by simp)
    have h2 : B.foldl Merge.mapSet [] = B := by
      simpa using Merge.foldl_mapSet_eq B hB [] (by simp)
    have e1 : Merge.mergeDailyMetrics A B =
        Merge.reintegrate none 0 0 (Merge.sortByDate (A ++ B)) := by
      show Merge.reintegrate none 0 0
        (Merge.sortByDate (B.foldl Merge.mergeStep (A.foldl Merge.mapSet []))) = _
      rw [h1, Merge.buildMap_disjoint A B hA hB hdisj]
    have e2 : Merge.mergeDailyMetrics B A =
        Merge.reintegrate none 0 0 (Merge.sortByDate (B ++ A)) := by
      show Merge.reintegrate none 0 0
        (Merge.sortByDate (A.foldl Merge.mergeStep (B.foldl Merge.mapSet []))) = _
      rw [h2, Merge.buildMap_disjoint B A hB hA (fun p hp q hq => (hdisj q hq p hp).symm)]
    rw [e1, e2]
    have hnodup : datesNodup (A ++ B) := by
      unfold datesNodup at *
      rw [List.pairwise_append]
      exact ⟨hA, hB, hdisj⟩
    have hsorteq : Merge.sortByDate (A ++ B) = Merge.sortByDate (B ++ A) := by
      refine Merge.eq_of_perm_sorted_nodup ?_ (Merge.sortByDate_pairwise _)
        (Merge.sortByDate_pairwise _) ?_
      · exact (Merge.sortByDate_perm _).trans
          (List.perm_append_comm.trans (Merge.sortByDate_perm _).symm)
      · exact Merge.datesNodup_of_perm (Merge.sortByDate_perm _).symm hnodup
    rw [hsorteq]
  · intro A hA
    have h1 : A.foldl Merge.mapSet [] = A := by
      simpa using Merge.foldl_mapSet_eq A hA [] (by simp)
    have e1 : Merge.mergeDailyMetrics A A =
        Merge.reintegrate none 0 0 (Merge.sortByDate (A.map Merge.doubleSF)) := by
      show Merge.reintegrate none 0 0
        (Merge.sortByDate (A.foldl Merge.mergeStep (A.foldl Merge.mapSet []))) = _
      rw [h1, Merge.buildMap_self A hA]
    rw [e1, Merge.sortByDate_map_doubleSF A hA, Merge.mergeDailyMetrics_nil A hA]
    have := Merge.reintegrate_double (Merge.sortByDate A) none 0 0
    simpa using this

unseal List.merge List.mergeSort in
/-- Witness for claim C3 at concrete inputs: two disjoint one-point series
commute, and self-merge doubles the stars and forks of the single point. -/
theorem c3_witness :
    Merge.mergeDailyMetrics [⟨0, 1, 2, 3, 4, 5, 6, 7, 8⟩] [⟨1, 9, 9, 9, 9, 9, 9, 9, 9⟩] =
      Merge.mergeDailyMetrics [⟨1, 9, 9, 9, 9, 9, 9, 9, 9⟩] [⟨0, 1, 2, 3, 4, 5, 6, 7, 8⟩] ∧
    Merge.mergeDailyMetrics [⟨0, 1, 2, 3, 4, 5, 6, 7, 8⟩] [⟨0, 1, 2, 3, 4, 5, 6, 7, 8⟩] =
      (Merge.mergeDailyMetrics [⟨0, 1, 2, 3, 4, 5, 6, 7, 8⟩] []).map Merge.doubleSF :=
  ⟨c3_theorem.1 _ _ (by decide) (by decide) (by decide), c3_theorem.2 _ (by decide)⟩

/-- Claim C10: for well-formed inputs, every point of the merge output
carries the date and the six non-additive counters (contributors, issues
opened and closed, PRs opened, closed and merged) exactly as produced by
the per-date combination step: the max of the two sides where the date is
present in both inputs, the single side verbatim otherwise. The
re-derivation pass rewrites only totalStars and totalForks. -/
theorem c10_theorem (A B : List DailyMetricPoint) (hA : datesNodup A) (hB : datesNodup B) :
    ∀ p ∈ Merge.mergeDailyMetrics A B, ∃ q, Merge.combineAt A B p.date = some q ∧
      p.date = q.date ∧
      p.totalContributors = q.totalContributors ∧
      p.totalIssuesOpened = q.totalIssuesOpened ∧
      p.totalIssuesClosed = q.totalIssuesClosed ∧
      p.totalPRsOpened = q.totalPRsOpened ∧
      p.totalPRsClosed = q.totalPRsClosed ∧
      p.totalPRsMerged = q.totalPRsMerged := by
  intro p hp
  rw [Merge.mergeDailyMetrics_eq A B hA hB] at hp
  obtain ⟨d, hd, hdate, hfields⟩ := Merge.reintegrate_mem _ _ _ _ p hp
  have hd2 : d ∈ A.map (Merge.updBy B) ++
      B.filter (fun x => (Merge.lookupDate A x.date).isNone) :=
    ((Merge.sortByDate_perm _).mem_iff).mp hd
  have hcomb : Merge.combineAt A B d.date = some d := by
    rcases List.mem_append.mp hd2 with hd3 | hd3
    · obtain ⟨a, haA, rfl⟩ := List.mem_map.mp hd3
      rw [Merge.updBy_date]
      unfold Merge.combineAt
      rw [Merge.lookupDate_self hA haA]
      unfold Merge.updBy
      cases hlb : Merge.lookupDate B a.date with
      | none => rfl
      | some b => rfl
    · have hmem : d ∈ B := List.mem_of_mem_filter hd3
      have hcond : (Merge.lookupDate A d.date).isNone = true := by
        simpa using List.of_mem_filter hd3
      unfold Merge.combineAt
      rw [Option.isNone_iff_eq_none.mp hcond, Merge.lookupDate_self hB hmem]
  exact ⟨d, hdate ▸ hcomb, hdate, hfields⟩

unseal List.merge List.mergeSort in
/-- Witness for claim C10: merging two one-point series sharing day 0, the
single output point has the max-combined counters of the combination step
(contributors 3, issues 4 and 5, PRs 6, 7 and 8). -/
theorem c10_witness :
    ∃ q, Merge.combineAt [⟨0, 1, 2, 3, 4, 5, 6, 7, 8⟩] [⟨0, 10, 1, 1, 1, 1, 1, 1, 1⟩] 0 =
      some q ∧
    (0 : Nat) = q.date ∧
    (3 : Int) = q.totalContributors ∧
    (4 : Int) = q.totalIssuesOpened ∧
    (5 : Int) = q.totalIssuesClosed ∧
    (6 : Int) = q.totalPRsOpened ∧
    (7 : Int) = q.totalPRsClosed ∧
    (8 : Int) = q.totalPRsMerged :=
  c10_theorem [⟨0, 1, 2, 3, 4, 5, 6, 7, 8⟩] [⟨0, 10, 1, 1, 1, 1, 1, 1, 1⟩]
    (by decide) (by decide) ⟨0, 11, 3, 3, 4, 5, 6, 7, 8⟩ (by decide)
